import Mathlib

/-
  Verification development for management/dns_update.py (mailinabox).

  The module regenerates DNS zone files, the nsd daemon configuration and
  the OpenDKIM signing tables for a set of mail domains.  The embedding
  below models the module's six functions as pure Lean functions:

  * the filesystem is an association list from path to file content;
  * `time.strftime("%Y%m%d00")` is passed in as the `now` argument;
  * the regular expressions used by the source are implemented as
    deterministic matchers (each of the three patterns used by the source
    has a unique backtracking-free match, as argued in the doc comments);
  * fallible code (missing files, failed matches, the external curl call)
    returns `Except String`;
  * the external dns4e web call of `justtestingdotemail` is an oracle
    `Notify` supplied by the caller; the list of calls actually issued is
    returned so that theorems can speak about notifier invocations.
-/

set_option maxRecDepth 4000

namespace DnsUpdate

/-- Whitespace characters matched by the `\s` class of Python regular
expressions, restricted to the ASCII range (the zone data handled by the
source is ASCII). -/
def isSpace (c : Char) : Bool :=
  c = ' ' || c = '\t' || c = '\n' || c = '\r' || c = '\x0b' || c = '\x0c'

/-- Decimal digits matched by the `\d` class of Python regular
expressions, restricted to the ASCII range (the zone data handled by the
source is ASCII). -/
def isDigitCh (c : Char) : Bool := 48 ≤ c.toNat && c.toNat ≤ 57

/-- A DNS resource record as built by `build_zone`: the Python triple
`(subdomain, querytype, value)` where `subdomain` may be `None`. -/
structure Record where
  subdomain : Option String
  querytype : String
  value : String
deriving DecidableEq, Repr

/-- The filesystem visible to the module: an association list from
absolute path to file content. -/
abbrev FS := List (String × String)

/-- Read a file: `open(p).read()` when the file exists. -/
def fsRead : FS → String → Option String
  | [], _ => none
  | (q, w) :: rest, p => if q = p then some w else fsRead rest p

/-- Write a file, creating it if absent (`open(p, "w").write(v)`). -/
def fsWrite : FS → String → String → FS
  | [], p, v => [(p, v)]
  | (q, w) :: rest, p, v => if q = p then (q, v) :: rest else (q, w) :: fsWrite rest p v

/-- Python `os.path.exists`. -/
def fsExists (fs : FS) (p : String) : Bool := (fsRead fs p).isSome

/-- Python `os.path.join` (posix) for two components. -/
def pathJoin (a b : String) : String :=
  if b.data.take 1 = ['/'] then b
  else if a.data = [] || a.data.getLast? = some '/' then a ++ b
  else a ++ "/" ++ b

/-- The environment dictionary fields used by the module. -/
structure Env where
  PUBLIC_HOSTNAME : String
  PUBLIC_IP : String
  STORAGE_ROOT : String
deriving DecidableEq, Repr

/-- UTF-8 encoding of one code point (valid for every `Char`, whose
codepoints exclude surrogates). -/
def utf8Bytes (c : Char) : List Nat :=
  let n := c.toNat
  if n < 128 then [n]
  else if n < 2048 then [192 + n / 64, 128 + n % 64]
  else if n < 65536 then [224 + n / 4096, 128 + n / 64 % 64, 128 + n % 64]
  else [240 + n / 262144, 128 + n / 4096 % 64, 128 + n / 64 % 64, 128 + n % 64]

/-- Upper-case hexadecimal digit, as used by urllib percent-escapes. -/
def hexDigit (n : Nat) : Char := if n < 10 then Char.ofNat (48 + n) else Char.ofNat (55 + n)

/-- The bytes urllib.parse.quote never escapes: ASCII letters, digits and
`_.-~` (urllib's `_ALWAYS_SAFE`). -/
def alwaysSafe (b : Nat) : Bool :=
  (65 ≤ b && b ≤ 90) || (97 ≤ b && b ≤ 122) || (48 ≤ b && b ≤ 57) ||
  b = 95 || b = 46 || b = 45 || b = 126

/-- Python `urllib.parse.quote(s, safe=<safe>)`: UTF-8 encode, keep the
always-safe bytes and the extra `safe` bytes, percent-escape the rest with
upper-case hex. -/
def pyQuoteWith (safe : List Nat) (s : String) : String :=
  ⟨(s.data.flatMap utf8Bytes).flatMap
    (fun b => if alwaysSafe b || safe.contains b then [Char.ofNat b]
              else ['%', hexDigit (b / 16), hexDigit (b % 16)])⟩

/-- Python `urllib.parse.quote(s, safe='')` as used for zone filenames. -/
def pyQuote (s : String) : String := pyQuoteWith [] s

/-- Python `urllib.parse.quote(s)` with the default `safe='/'`, as used in
the dns4e URL of `justtestingdotemail`. -/
def pyQuoteDefault (s : String) : String := pyQuoteWith [47] s

/-- Numeric value of a decimal digit string, Python `int(s)` for `s`
matched by `\d+`. -/
def digitsToNat (l : List Char) : Nat := l.foldl (fun a c => a * 10 + (c.toNat - 48)) 0

/-- Decimal digits of a natural number, most significant first.  The
first argument is recursion fuel; any fuel greater than `n` gives the
digits of `n` (structural recursion on the fuel keeps the function
computable by the kernel). -/
def natToStrAux : Nat → Nat → List Char → List Char
  | 0, _, acc => acc
  | fuel + 1, n, acc =>
    if n < 10 then Char.ofNat (48 + n) :: acc
    else natToStrAux fuel (n / 10) (Char.ofNat (48 + n % 10) :: acc)

/-- Python `str` of a non-negative integer. -/
def natToStr (n : Nat) : String := ⟨natToStrAux (n + 1) n []⟩

/-- Python string `<` (lexicographic on code points). -/
def pyStrLt : List Char → List Char → Bool
  | [], [] => false
  | [], _ :: _ => true
  | _ :: _, [] => false
  | a :: as, b :: bs =>
    if a.toNat < b.toNat then true
    else if b.toNat < a.toNat then false
    else pyStrLt as bs

/-- Python string `>=`, the comparison `existing_serial >= serial` performed
by `write_nsd_zone` on the two digit strings. -/
def pyStrGe (a b : String) : Bool := ! pyStrLt a.data b.data

/-- Helper of `replaceAll` with explicit recursion fuel; any fuel of at
least the length of the scanned list gives Python's `str.replace`
(structural recursion on the fuel keeps the function computable by the
kernel). -/
def replaceAllFuel (pat rep : List Char) : Nat → List Char → List Char
  | 0, s => s
  | fuel + 1, s =>
    match s with
    | [] => []
    | c :: rest =>
      if pat ≠ [] ∧ pat.isPrefixOf (c :: rest) then
        rep ++ replaceAllFuel pat rep fuel ((c :: rest).drop pat.length)
      else
        c :: replaceAllFuel pat rep fuel rest

/-- Python `str.replace` for a non-empty pattern: scan left to right,
replacing non-overlapping occurrences.  (The source never calls replace
with an empty pattern.) -/
def replaceAll (pat rep s : List Char) : List Char := replaceAllFuel pat rep s.length s

/-- String wrapper of `replaceAll`. -/
def replaceAllS (pat rep s : String) : String := ⟨replaceAll pat.data rep.data s.data⟩

/-- One attempt of the Python pattern `(\d+)\s*;\s*serial number` anchored
at the head of `s`; returns `(group 0, group 1)` on success.  The pattern
is backtracking-free: `\d+` must take the maximal digit run (a shorter run
leaves a digit where `\s*;` needs whitespace or `;`), and each `\s*` must
take the maximal whitespace run (the following literal is never
whitespace). -/
def matchSerialAt (s : List Char) : Option (List Char × List Char) :=
  let d := s.takeWhile isDigitCh
  if d = [] then none else
  let s1 := s.dropWhile isDigitCh
  let w1 := s1.takeWhile isSpace
  match s1.dropWhile isSpace with
  | [] => none
  | c :: s3 =>
    if c = ';' then
      let w2 := s3.takeWhile isSpace
      if ("serial number".data).isPrefixOf (s3.dropWhile isSpace) then
        some (d ++ w1 ++ c :: (w2 ++ "serial number".data), d)
      else none
    else none

/-- Scan for the leftmost match of `matchSerialAt`. -/
def searchSerialAux : List Char → Option (List Char × List Char)
  | [] => none
  | c :: rest =>
    match matchSerialAt (c :: rest) with
    | some r => some r
    | none => searchSerialAux rest

/-- Python `re.search(r"(\d+)\s*;\s*serial number", s)`. -/
def searchSerial (s : String) : Option (List Char × List Char) := searchSerialAux s.data

/-- Helper for the greedy `.*` of the DKIM pattern: positions `j` in `r`
holding `)` that are followed (after maximal whitespace) by `;`. -/
def validCloseAt (r : List Char) (j : Nat) : Bool :=
  match r.drop j with
  | ')' :: t => (t.dropWhile isSpace).take 1 = [';']
  | _ => false

/-- Rightmost valid closing-paren position (greedy `.*` backtracks to the
last `)` whose tail matches `\s*;`). -/
def lastCloseParen (r : List Char) : Option Nat :=
  ((List.range r.length).filter (validCloseAt r)).getLast?

/-- Python `re.match(r"(\S+)\s+IN\s+TXT\s+(\(.*\))\s*;", s, re.S)`;
returns `(group 1, group 2)`.  Greedy `\S+` must take the maximal
non-space run (a shorter one leaves a non-space where `\s+` is required),
each `\s+` the maximal whitespace run, and `.*` (with `re.S`) reaches to
the last `)` that is followed by `\s*;`. -/
def dkimMatch (s : List Char) : Option (List Char × List Char) :=
  let g1 := s.takeWhile (fun c => ! isSpace c)
  if g1 = [] then none else
  let s1 := s.dropWhile (fun c => ! isSpace c)
  if s1.takeWhile isSpace = [] then none else
  let s2 := s1.dropWhile isSpace
  if s2.take 2 = "IN".data then
    let s2' := s2.drop 2
    if s2'.takeWhile isSpace = [] then none else
    let s3 := s2'.dropWhile isSpace
    if s3.take 3 = "TXT".data then
      let s3' := s3.drop 3
      if s3'.takeWhile isSpace = [] then none else
      let s4 := s3'.dropWhile isSpace
      if s4.take 1 = ['('] then
        let r := s4.drop 1
        match lastCloseParen r with
        | some j => some (g1, '(' :: r.take (j + 1))
        | none => none
      else none
    else none
  else none

/-- Rightmost position of `)` in `r`, for `stripParens`. -/
def lastCloseIdx (r : List Char) : Option Nat :=
  ((List.range r.length).filter (fun j => (r.drop j).take 1 = [')'])).getLast?

/-- Python `re.sub("^\s*\(\s*([\w\W]*)\)", r"\1", v)`: if `v` starts with
optional whitespace and `(`, and a `)` occurs later, the whole prefix up
to the last `)` is replaced by the text between the `(` (after maximal
whitespace) and that last `)`. -/
def stripParens (v : List Char) : List Char :=
  match v.dropWhile isSpace with
  | '(' :: r =>
    let inner := r.dropWhile isSpace
    match lastCloseIdx inner with
    | some j => inner.take j ++ inner.drop (j + 1)
    | none => v
  | _ => v

/-- Helper of `collapseWs`: the flag records whether the previous kept
position was inside a whitespace run. -/
def collapseWsAux : Bool → List Char → List Char
  | _, [] => []
  | prevWs, c :: rest =>
    if isSpace c then
      (if prevWs then [] else [' ']) ++ collapseWsAux true rest
    else c :: collapseWsAux false rest

/-- Python `re.sub("\s+", " ", v)`: each maximal whitespace run becomes a
single space. -/
def collapseWs (v : List Char) : List Char := collapseWsAux false v

/-- The SOA template of `write_nsd_zone` after `.format` substitution of
`domain` and `primary_domain` (exact bytes of the source's triple-quoted
string). -/
def zoneHeader (domain primary : String) : String :=
  "\n$ORIGIN " ++ domain ++
  ".    ; default zone domain\n$TTL 86400           ; default time to live\n\n@ IN SOA ns1." ++
  primary ++ ". hostmaster." ++ primary ++
  ". (\n           __SERIAL__     ; serial number\n           28800       ; Refresh\n           7200        ; Retry\n           864000      ; Expire\n           86400       ; Min TTL\n           )\n"

/-- One record line appended to the zone: the Python `if subdomain:` guard
skips both `None` and the empty string. -/
def recordLine (r : Record) : String :=
  (match r.subdomain with
   | some s => if s = "" then "" else s
   | none => "") ++ "\tIN\t" ++ r.querytype ++ "\t" ++ r.value ++ "\n"

/-- The record section of the zone text. -/
def renderRecords : List Record → String
  | [] => ""
  | r :: rest => recordLine r ++ renderRecords rest

/-- The zone text of `write_nsd_zone` before the serial number is
substituted for `__SERIAL__`. -/
def rawZone (domain : String) (env : Env) (records : List Record) : String :=
  zoneHeader domain env.PUBLIC_HOSTNAME ++ renderRecords records

/-- Path of the DKIM public-record file read by `build_zone`. -/
def dkimRecordPath (env : Env) : String := pathJoin env.STORAGE_ROOT "mail/dkim/mail.txt"

/-- Path of the DKIM private-key file checked by `write_opendkim_tables`. -/
def dkimKeyPath (env : Env) : String := pathJoin env.STORAGE_ROOT "mail/dkim/mail.private"

/-- `build_zone(domain, env)` of the source.  When the DKIM record file
exists but its content does not match the pattern, `m` is `None` and
`m.group(1)` raises `AttributeError`; the embedding returns that as an
error. -/
def build_zone (domain : String) (env : Env) (fs : FS) : Except String (List Record) :=
  let base : List Record := [
    ⟨none, "NS", "ns1." ++ env.PUBLIC_HOSTNAME ++ "."⟩,
    ⟨none, "NS", "ns2." ++ env.PUBLIC_HOSTNAME ++ "."⟩,
    ⟨none, "A", env.PUBLIC_IP⟩,
    ⟨none, "MX", "10 " ++ env.PUBLIC_HOSTNAME ++ "."⟩,
    ⟨none, "TXT", "\"v=spf1 mx -all\""⟩,
    ⟨some "www", "A", env.PUBLIC_IP⟩]
  let base := base ++
    (if domain = env.PUBLIC_HOSTNAME then
      [⟨some "ns1", "A", env.PUBLIC_IP⟩, ⟨some "ns2", "A", env.PUBLIC_IP⟩]
     else [])
  match fsRead fs (dkimRecordPath env) with
  | none => .ok base
  | some content =>
    match dkimMatch content.data with
    | none => .error "AttributeError: NoneType object has no attribute group"
    | some (sel, val) =>
      .ok (base ++ [⟨some ⟨sel⟩, "TXT", ⟨val⟩⟩,
        ⟨some "_adsp._domainkey", "TXT", "\"dkim=all\""⟩,
        ⟨some "_dmarc", "TXT", "\"v=DMARC1; p=quarantine\""⟩])

/-- `write_nsd_zone(domain, zonefile, records, env)` of the source; `now`
is `time.strftime("%Y%m%d00")`.  Returns the new filesystem and the
changed flag. -/
def write_nsd_zone (domain zonefile : String) (records : List Record) (env : Env)
    (now : String) (fs : FS) : FS × Bool :=
  let zone := rawZone domain env records
  match fsRead fs zonefile with
  | some existing =>
    match searchSerial existing with
    | some (g0, existingSerial) =>
      if zone = replaceAllS ⟨g0⟩ "__SERIAL__     ; serial number" existing then (fs, false)
      else
        let serial :=
          if pyStrGe ⟨existingSerial⟩ now then natToStr (digitsToNat existingSerial + 1)
          else now
        (fsWrite fs zonefile (replaceAllS "__SERIAL__" serial zone), true)
    | none => (fsWrite fs zonefile (replaceAllS "__SERIAL__" now zone), true)
  | none => (fsWrite fs zonefile (replaceAllS "__SERIAL__" now zone), true)

/-- One `zone { name; zonefile; }` stanza of nsd.conf (exact bytes of the
source's `%`-format string). -/
def nsdZoneStanza (domain zonefile : String) : String :=
  "\nzone:\n\tname: " ++ domain ++ "\n\tzonefile: " ++ zonefile ++ "\n"

/-- The stanza list of nsd.conf. -/
def nsdConfText : List (String × String) → String
  | [] => ""
  | (d, z) :: rest => nsdZoneStanza d z ++ nsdConfText rest

/-- The fixed server header of nsd.conf (exact bytes of the source's
triple-quoted string). -/
def nsdConfHeader : String :=
  "\nserver:\n  hide-version: yes\n\n  # identify the server (CH TXT ID.SERVER entry).\n  identity: \"\"\n\n  # The directory for zonefile: files.\n  zonesdir: \"/etc/nsd/zones\"\n  \n# ZONES\n"

/-- `write_nsd_conf(zonefiles)` of the source.  The source opens
`/etc/nsd/nsd.conf` for reading unconditionally, so a missing file raises
`FileNotFoundError`. -/
def write_nsd_conf (zonefiles : List (String × String)) (fs : FS) : Except String (FS × Bool) :=
  let nsdconf := nsdConfHeader ++ nsdConfText zonefiles
  match fsRead fs "/etc/nsd/nsd.conf" with
  | none => .error "FileNotFoundError: /etc/nsd/nsd.conf"
  | some c =>
    if c = nsdconf then .ok (fs, false)
    else .ok (fsWrite fs "/etc/nsd/nsd.conf" nsdconf, true)

/-- Python `"\n".join` and `",".join`. -/
def joinSep (sep : String) : List String → String
  | [] => ""
  | [x] => x
  | x :: y :: rest => x ++ sep ++ joinSep sep (y :: rest)

/-- Content of OpenDKIM's KeyTable. -/
def keyTableText (zonefiles : List (String × String)) (keyFile : String) : String :=
  joinSep "\n" (zonefiles.map (fun dz => dz.1 ++ " " ++ dz.1 ++ ":mail:" ++ keyFile))

/-- Content of OpenDKIM's SigningTable. -/
def signingTableText (zonefiles : List (String × String)) : String :=
  joinSep "\n" (zonefiles.map (fun dz => "*@" ++ dz.1 ++ " " ++ dz.1))

/-- `write_opendkim_tables(zonefiles, env)` of the source: returns
immediately when the private-key file is absent, otherwise overwrites both
tables unconditionally. -/
def write_opendkim_tables (zonefiles : List (String × String)) (env : Env) (fs : FS) : FS :=
  if fsExists fs (dkimKeyPath env) then
    fsWrite (fsWrite fs "/etc/opendkim/KeyTable" (keyTableText zonefiles (dkimKeyPath env)))
      "/etc/opendkim/SigningTable" (signingTableText zonefiles)
  else fs

/-- The external dns4e call of `justtestingdotemail`: given the url-quoted
subdomain, the lower-cased query type and the url-quoted record value, it
returns the decoded response message, or an error modelling an uncaught
`subprocess.CalledProcessError` or `json.JSONDecodeError`. -/
abbrev Notify := String → String → String → Except String String

/-- The per-record loop of `justtestingdotemail`: NS records and the
`www`/`ns1`/`ns2` subdomains are skipped, non-TXT records are skipped by
the `else: continue`, and each remaining TXT record is reformatted and
sent.  Returns the list of calls issued; an oracle failure propagates. -/
def jtRecordCalls (domain : String) (notify : Notify) :
    List Record → Except String (List (String × String × String))
  | [] => .ok []
  | r :: rest =>
    if r.querytype = "NS" then jtRecordCalls domain notify rest
    else if r.subdomain = some "www" || r.subdomain = some "ns1" || r.subdomain = some "ns2" then
      jtRecordCalls domain notify rest
    else
      let sub := match r.subdomain with
        | none => domain
        | some s => s ++ "." ++ domain
      if r.querytype = "TXT" then
        let v : String := ⟨collapseWs (stripParens r.value.data)⟩
        match notify (pyQuoteDefault sub) "txt" (pyQuote v) with
        | .error e => .error e
        | .ok _ =>
          match jtRecordCalls domain notify rest with
          | .error e => .error e
          | .ok calls => .ok ((pyQuoteDefault sub, "txt", pyQuote v) :: calls)
      else jtRecordCalls domain notify rest

/-- `justtestingdotemail(domain, records)` of the source: a no-op unless
the domain ends in `.justtesting.email`. -/
def justtestingdotemail (domain : String) (records : List Record) (notify : Notify) :
    Except String (List (String × String × String)) :=
  if (".justtesting.email".data).isSuffixOf domain.data then
    jtRecordCalls domain notify records
  else .ok []

/-- The zone filename chosen by `do_dns_update`:
`urllib.parse.quote(domain, safe='') + ".txt"`. -/
def zonefileName (domain : String) : String := pyQuote domain ++ ".txt"

/-- The per-domain loop of `do_dns_update`: build the records, write the
zone, and on a reported write run the notifier (whose failure would
propagate, as in the source) and collect the domain into the updated
list. -/
def processDomains (env : Env) (now : String) (notify : Notify) :
    List (String × String) → FS →
    Except String (FS × List String × List (String × String × String × String))
  | [], fs => .ok (fs, [], [])
  | (domain, zonefile) :: rest, fs =>
    match build_zone domain env fs with
    | .error e => .error e
    | .ok records =>
      let wz := write_nsd_zone domain ("/etc/nsd/zones/" ++ zonefile) records env now fs
      if wz.2 then
        match justtestingdotemail domain records notify with
        | .error e => .error e
        | .ok cs =>
          match processDomains env now notify rest wz.1 with
          | .error e => .error e
          | .ok (fs2, upd, calls) =>
            .ok (fs2, domain :: upd, cs.map (fun c => (domain, c)) ++ calls)
      else processDomains env now notify rest wz.1

/-- The outcome of one `do_dns_update` run: the final filesystem, the
`updated_domains` list, the returned status string, and the notifier calls
issued, each tagged with the domain whose zone write triggered it. -/
structure RunResult where
  fs : FS
  updated : List String
  output : String
  calls : List (String × String × String × String)
deriving DecidableEq, Repr

/-- `do_dns_update(env)` of the source.  The Python `set` of domains
(`{PUBLIC_HOSTNAME} ∪ get_mail_domains(env)`, the latter an external
collaborator) is supplied as its iteration order `domains`; `os.makedirs`
on the zone directory and the two `service ... restart` commands are
external effects with no footprint on the modelled file map. -/
def do_dns_update (env : Env) (domains : List String) (now : String) (notify : Notify)
    (fs : FS) : Except String RunResult :=
  let zonefiles := domains.map (fun d => (d, zonefileName d))
  match processDomains env now notify zonefiles fs with
  | .error e => .error e
  | .ok (fs1, updated, calls) =>
    match write_nsd_conf zonefiles fs1 with
    | .error e => .error e
    | .ok (fs2, confChanged) =>
      let updated := if confChanged && updated.isEmpty then ["DNS configuration"] else updated
      let fs3 := write_opendkim_tables zonefiles env fs2
      .ok ⟨fs3, updated,
        if updated.isEmpty then "" else "updated: " ++ joinSep "," updated ++ "\n", calls⟩

/- Named pieces of the zone template and auxiliary predicates used by the
idempotence and serial round-trip proofs. -/

/-- Template text before the domain. -/
def zhA1 : List Char := "\n$ORIGIN ".data

/-- Template text between the domain and the first primary-domain slot. -/
def zhA2 : List Char :=
  ".    ; default zone domain\n$TTL 86400           ; default time to live\n\n@ IN SOA ns1.".data

/-- Template text between the two primary-domain slots. -/
def zhA3 : List Char := ". hostmaster.".data

/-- Template text between the second primary-domain slot and the serial
placeholder. -/
def zhA4 : List Char := ". (\n           ".data

/-- The serial placeholder. -/
def serialPat : List Char := "__SERIAL__".data

/-- Template text between the serial value and the rest of the header. -/
def serialTail : List Char := "     ; serial number".data

/-- The literal scanned for by the serial recognizer. -/
def snLit : List Char := "serial number".data

/-- Template text after the serial line, up to the record section. -/
def zhQ0 : List Char :=
  "\n           28800       ; Refresh\n           7200        ; Retry\n           864000      ; Expire\n           86400       ; Min TTL\n           )\n".data

/-- Hostname-safe characters: ASCII letters, digits, dot and hyphen.  The
idempotence theorem requires domains and addresses to use only these. -/
def hsOk (c : Char) : Bool :=
  (65 ≤ c.toNat && c.toNat ≤ 90) || (97 ≤ c.toNat && c.toNat ≤ 122) ||
  isDigitCh c || c = '.' || c = '-'

/-- Adjacent-pair check: no `l` immediately followed by a space.  A
string whose adjacent pairs all pass cannot contain the literal
`serial number`. -/
def noLSb (x y : Char) : Bool := ! (x = 'l' && y = ' ')

/-- Adjacent-pair check: no whitespace immediately followed by a digit.
The pattern `(\d+)\s*;\s*serial number` never matches across such a
boundary. -/
def noWDb (x y : Char) : Bool := ! (isSpace x && isDigitCh y)

/-- Adjacent-pair check: no two adjacent underscores.  A string whose
adjacent pairs all pass cannot contain the placeholder `__SERIAL__`. -/
def noUUb (x y : Char) : Bool := ! (x = '_' && y = '_')

/-- Computable check that every adjacent pair of a list passes `p`. -/
def chainB (p : Char → Char → Bool) : List Char → Bool
  | [] => true
  | [_] => true
  | x :: y :: rest => p x y && chainB p (y :: rest)

/-- The records `build_zone` emits before the DKIM block: the fixed six,
plus the `ns1`/`ns2` glue when the domain is the public hostname. -/
def baseRecords (domain : String) (env : Env) : List Record :=
  [⟨none, "NS", "ns1." ++ env.PUBLIC_HOSTNAME ++ "."⟩,
   ⟨none, "NS", "ns2." ++ env.PUBLIC_HOSTNAME ++ "."⟩,
   ⟨none, "A", env.PUBLIC_IP⟩,
   ⟨none, "MX", "10 " ++ env.PUBLIC_HOSTNAME ++ "."⟩,
   ⟨none, "TXT", "\"v=spf1 mx -all\""⟩,
   ⟨some "www", "A", env.PUBLIC_IP⟩] ++
  (if domain = env.PUBLIC_HOSTNAME then
    [⟨some "ns1", "A", env.PUBLIC_IP⟩, ⟨some "ns2", "A", env.PUBLIC_IP⟩]
   else [])

/-- Everything of the zone render before the serial placeholder. -/
def zonePre (domain primary : String) : List Char :=
  zhA1 ++ domain.data ++ zhA2 ++ primary.data ++ zhA3 ++ primary.data ++ zhA4

/-- Everything of the zone render after the serial line's fixed tail. -/
def zonePost (records : List Record) : List Char :=
  zhQ0 ++ (renderRecords records).data

/-- The invariant a zone file on disk satisfies after a run of
`write_nsd_zone` whose serial-neutral render was `R`: the serial
recognizer finds a digit serial, and replacing its whole match by the
placeholder text recovers `R` exactly.  A further `write_nsd_zone` against
such a file with an identical render reports no change. -/
def zoneInv (R content : String) : Prop :=
  ∃ g0 e : List Char, searchSerial content = some (g0, e) ∧
    replaceAllS ⟨g0⟩ "__SERIAL__     ; serial number" content = R

/-- Decidable precondition of the idempotence theorem: if a DKIM public
record is present and parses, its selector and value satisfy the
adjacent-pair checks (no `l` before a space in the value, no doubled
underscore in either). -/
def dkimChainsOk (env : Env) (fs : FS) : Bool :=
  match fsRead fs (dkimRecordPath env) with
  | none => true
  | some content =>
    match dkimMatch content.data with
    | none => true
    | some (sel, val) => chainB noLSb val && chainB noUUb sel && chainB noUUb val

/-- Fixture environment used by concrete witnesses. -/
def envA : Env := ⟨"box.example.com", "203.0.113.5", "/home/user-data"⟩

/-- Fixture environment with short strings, for heavier concrete runs. -/
def envS : Env := ⟨"h.tld", "9.9.9.9", "/r"⟩

/-- Fixture notifier that always succeeds. -/
def notifyOkA : Notify := fun _ _ _ => .ok "ok"

/-- Fixture notifier that always fails, modelling a failing curl call. -/
def notifyFailA : Notify := fun _ _ _ => .error "curl: (6) could not resolve host"

end DnsUpdate

namespace DnsUpdate

/- Fuel irrelevance for the two fuel-based functions, and their step
equations. -/

lemma natToStrAux_fuel (f1 : Nat) :
    ∀ (f2 n : Nat) (acc : List Char), n < f1 → n < f2 →
      natToStrAux f1 n acc = natToStrAux f2 n acc := by
  induction f1 with
  | zero => intro f2 n acc h1 h2; omega
  | succ f ih =>
    intro f2 n acc h1 h2
    cases f2 with
    | zero => omega
    | succ f2' =>
      by_cases hn : n < 10
      · simp [natToStrAux, hn]
      · have hlt : n / 10 < n := Nat.div_lt_self (by omega) (by omega)
        simp only [natToStrAux, if_neg hn]
        exact ih f2' (n / 10) _ (by omega) (by omega)

lemma digitChar_toNat (d : Nat) (h : d < 10) : (Char.ofNat (48 + d)).toNat = 48 + d := by
  interval_cases d <;> decide

lemma digitChar_isDigit (d : Nat) (h : d < 10) : isDigitCh (Char.ofNat (48 + d)) = true := by
  interval_cases d <;> decide

lemma natToStrAux_append (fuel : Nat) :
    ∀ (n : Nat) (acc : List Char), n < fuel →
      natToStrAux fuel n acc = natToStrAux fuel n [] ++ acc := by
  induction fuel with
  | zero => intro n acc h; omega
  | succ f ih =>
    intro n acc h
    by_cases hn : n < 10
    · simp [natToStrAux, hn]
    · have hlt : n / 10 < n := Nat.div_lt_self (by omega) (by omega)
      simp only [natToStrAux, if_neg hn]
      rw [ih (n / 10) _ (by omega), ih (n / 10) [Char.ofNat (48 + n % 10)] (by omega),
        List.append_assoc]
      rfl

lemma natToStrAux_length (fuel : Nat) :
    ∀ (n : Nat) (acc : List Char), n < fuel →
      acc.length < (natToStrAux fuel n acc).length := by
  induction fuel with
  | zero => intro n acc h; omega
  | succ f ih =>
    intro n acc h
    by_cases hn : n < 10
    · simp [natToStrAux, hn]
    · have hlt : n / 10 < n := Nat.div_lt_self (by omega) (by omega)
      simp only [natToStrAux, if_neg hn]
      have := ih (n / 10) (Char.ofNat (48 + n % 10) :: acc) (by omega)
      simp only [List.length_cons] at this
      omega

lemma natToStrAux_all_digits (fuel : Nat) :
    ∀ (n : Nat) (acc : List Char), n < fuel →
      (∀ c ∈ acc, isDigitCh c = true) →
      ∀ c ∈ natToStrAux fuel n acc, isDigitCh c = true := by
  induction fuel with
  | zero => intro n acc h; omega
  | succ f ih =>
    intro n acc h hacc
    by_cases hn : n < 10
    · simp only [natToStrAux, if_pos hn]
      intro c hc
      rcases List.mem_cons.mp hc with rfl | hc
      · exact digitChar_isDigit n hn
      · exact hacc c hc
    · have hlt : n / 10 < n := Nat.div_lt_self (by omega) (by omega)
      simp only [natToStrAux, if_neg hn]
      refine ih (n / 10) _ (by omega) ?_
      intro c hc
      rcases List.mem_cons.mp hc with rfl | hc
      · exact digitChar_isDigit (n % 10) (Nat.mod_lt n (by omega))
      · exact hacc c hc

lemma digitsToNat_natToStrAux (fuel : Nat) :
    ∀ n : Nat, n < fuel → digitsToNat (natToStrAux fuel n []) = n := by
  induction fuel with
  | zero => intro n h; omega
  | succ f ih =>
    intro n h
    by_cases hn : n < 10
    · simp only [natToStrAux, if_pos hn]
      simp [digitsToNat, digitChar_toNat n hn]
    · have hlt : n / 10 < n := Nat.div_lt_self (by omega) (by omega)
      simp only [natToStrAux, if_neg hn]
      rw [natToStrAux_append f (n / 10) _ (by omega)]
      unfold digitsToNat
      rw [List.foldl_append]
      have hih := ih (n / 10) (by omega)
      unfold digitsToNat at hih
      rw [hih]
      simp only [List.foldl_cons, List.foldl_nil]
      rw [digitChar_toNat (n % 10) (Nat.mod_lt n (by omega))]
      omega

lemma natToStr_ne_nil (n : Nat) : (natToStr n).data ≠ [] := by
  intro h
  have hlen := natToStrAux_length (n + 1) n [] (by omega)
  rw [show natToStrAux (n + 1) n [] = (natToStr n).data from rfl, h] at hlen
  simp at hlen

lemma natToStr_all_digits (n : Nat) : ∀ c ∈ (natToStr n).data, isDigitCh c = true :=
  natToStrAux_all_digits (n + 1) n [] (by omega) (by intro c hc; cases hc)

lemma digitsToNat_natToStr (n : Nat) : digitsToNat (natToStr n).data = n :=
  digitsToNat_natToStrAux (n + 1) n (by omega)

lemma replaceAllFuel_fuel (pat rep : List Char) (f1 : Nat) :
    ∀ (f2 : Nat) (s : List Char), s.length ≤ f1 → s.length ≤ f2 →
      replaceAllFuel pat rep f1 s = replaceAllFuel pat rep f2 s := by
  induction f1 with
  | zero =>
    intro f2 s h1 h2
    cases s with
    | nil => cases f2 <;> simp [replaceAllFuel]
    | cons c rest => simp at h1
  | succ f ih =>
    intro f2 s h1 h2
    cases s with
    | nil => cases f2 <;> simp [replaceAllFuel]
    | cons c rest =>
      cases f2 with
      | zero => simp at h2
      | succ f2' =>
        simp only [replaceAllFuel]
        by_cases hp : pat ≠ [] ∧ pat.isPrefixOf (c :: rest) = true
        · rw [if_pos hp, if_pos hp]
          have hlp := List.length_pos.mpr hp.1
          simp only [List.length_cons] at h1 h2
          congr 1
          apply ih
          · simp only [List.length_drop, List.length_cons]; omega
          · simp only [List.length_drop, List.length_cons]; omega
        · rw [if_neg hp, if_neg hp]
          simp only [List.length_cons] at h1 h2
          congr 1
          apply ih <;> omega

lemma replaceAll_pos (pat rep s : List Char) (h : pat ≠ [] ∧ pat.isPrefixOf s = true) :
    replaceAll pat rep s = rep ++ replaceAll pat rep (s.drop pat.length) := by
  cases s with
  | nil =>
    obtain ⟨h1, h2⟩ := h
    cases pat with
    | nil => exact absurd rfl h1
    | cons p ps => simp [List.isPrefixOf] at h2
  | cons c rest =>
    have hlp := List.length_pos.mpr h.1
    show replaceAllFuel pat rep (rest.length + 1) (c :: rest) = _
    rw [show replaceAllFuel pat rep (rest.length + 1) (c :: rest) =
        rep ++ replaceAllFuel pat rep rest.length ((c :: rest).drop pat.length) from by
      simp only [replaceAllFuel, if_pos h]]
    congr 1
    apply replaceAllFuel_fuel
    · simp only [List.length_drop, List.length_cons]; omega
    · exact Nat.le_refl _

lemma replaceAll_neg (pat rep : List Char) (c : Char) (rest : List Char)
    (h : ¬ (pat ≠ [] ∧ pat.isPrefixOf (c :: rest) = true)) :
    replaceAll pat rep (c :: rest) = c :: replaceAll pat rep rest := by
  show replaceAllFuel pat rep (rest.length + 1) (c :: rest) = _
  simp only [replaceAllFuel, if_neg h]
  rfl

/- Arithmetic of decimal digit strings and the Python string ordering. -/

lemma char_toNat_inj (a b : Char) (h : a.toNat = b.toNat) : a = b := Char.ext (UInt32.ext h)

lemma foldl_digits_shift (l : List Char) : ∀ a : Nat,
    l.foldl (fun a c => a * 10 + (c.toNat - 48)) a = a * 10 ^ l.length + digitsToNat l := by
  induction l with
  | nil => intro a; simp [digitsToNat]
  | cons c t ih =>
    intro a
    simp only [List.foldl_cons, List.length_cons]
    rw [ih (a * 10 + (c.toNat - 48))]
    have hc : digitsToNat (c :: t) = (c.toNat - 48) * 10 ^ t.length + digitsToNat t := by
      show List.foldl (fun a c => a * 10 + (c.toNat - 48)) 0 (c :: t) = _
      simp only [List.foldl_cons]
      rw [ih (0 * 10 + (c.toNat - 48))]
      norm_num
    rw [hc, pow_succ]
    ring

lemma digitsToNat_cons (c : Char) (t : List Char) :
    digitsToNat (c :: t) = (c.toNat - 48) * 10 ^ t.length + digitsToNat t := by
  show List.foldl (fun a c => a * 10 + (c.toNat - 48)) 0 (c :: t) = _
  simp only [List.foldl_cons]
  rw [foldl_digits_shift t (0 * 10 + (c.toNat - 48))]
  norm_num

lemma isDigitCh_bounds (c : Char) (h : isDigitCh c = true) :
    48 ≤ c.toNat ∧ c.toNat ≤ 57 := by
  simp only [isDigitCh, Bool.and_eq_true, decide_eq_true_eq] at h
  exact h

lemma digitsToNat_lt (l : List Char) (h : ∀ c ∈ l, isDigitCh c = true) :
    digitsToNat l < 10 ^ l.length := by
  induction l with
  | nil => simp [digitsToNat]
  | cons c t ih =>
    obtain ⟨h1, h2⟩ := isDigitCh_bounds c (h c (by simp))
    have ht := ih (fun x hx => h x (by simp [hx]))
    rw [digitsToNat_cons, List.length_cons, pow_succ]
    have hd9 : c.toNat - 48 ≤ 9 := by omega
    calc (c.toNat - 48) * 10 ^ t.length + digitsToNat t
        < (c.toNat - 48) * 10 ^ t.length + 10 ^ t.length := by omega
      _ = (c.toNat - 48 + 1) * 10 ^ t.length := by ring
      _ ≤ 10 * 10 ^ t.length := Nat.mul_le_mul_right _ (by omega)
      _ = 10 ^ t.length * 10 := by ring

lemma digitsToNat_head_ge (c : Char) (t : List Char) (h : 49 ≤ c.toNat) :
    10 ^ t.length ≤ digitsToNat (c :: t) := by
  rw [digitsToNat_cons]
  have : 1 * 10 ^ t.length ≤ (c.toNat - 48) * 10 ^ t.length :=
    Nat.mul_le_mul_right _ (by omega)
  omega

lemma digitsToNat_lt_of_shorter (a : List Char) (y : Char) (bs : List Char)
    (ha : ∀ c ∈ a, isDigitCh c = true)
    (hy : isDigitCh y = true) (hy0 : y ≠ '0')
    (hlen : a.length < (y :: bs).length) : digitsToNat a < digitsToNat (y :: bs) := by
  have hb := isDigitCh_bounds y hy
  have hy49 : 49 ≤ y.toNat := by
    rcases Nat.lt_or_ge 49 (y.toNat + 1) with h | h
    · omega
    · exfalso
      exact hy0 (char_toNat_inj y '0' (by simpa using by omega))
  have h1 : digitsToNat a < 10 ^ a.length := digitsToNat_lt a ha
  have h2 : 10 ^ bs.length ≤ digitsToNat (y :: bs) := digitsToNat_head_ge y bs hy49
  have h3 : a.length ≤ bs.length := by simpa using Nat.lt_succ_iff.mp (by simpa using hlen)
  have h4 : (10 : Nat) ^ a.length ≤ 10 ^ bs.length := Nat.pow_le_pow_right (by omega) h3
  omega

lemma pyStrLt_nil_right (l : List Char) : pyStrLt l [] = false := by
  cases l <;> rfl

lemma pyStrLt_iff (a : List Char) : ∀ b : List Char, a.length = b.length →
    (∀ c ∈ a, isDigitCh c = true) → (∀ c ∈ b, isDigitCh c = true) →
    (pyStrLt a b = true ↔ digitsToNat a < digitsToNat b) := by
  induction a with
  | nil =>
    intro b hlen _ _
    cases b with
    | nil => simp [pyStrLt, digitsToNat]
    | cons y bs => simp at hlen
  | cons x as ih =>
    intro b hlen ha hb
    cases b with
    | nil => simp at hlen
    | cons y bs =>
      have hlen' : as.length = bs.length := by simpa using hlen
      obtain ⟨hx1, hx2⟩ := isDigitCh_bounds x (ha x (by simp))
      obtain ⟨hy1, hy2⟩ := isDigitCh_bounds y (hb y (by simp))
      have hAlt : digitsToNat as < 10 ^ as.length :=
        digitsToNat_lt as (fun c hc => ha c (by simp [hc]))
      have hBlt : digitsToNat bs < 10 ^ bs.length :=
        digitsToNat_lt bs (fun c hc => hb c (by simp [hc]))
      by_cases h1 : x.toNat < y.toNat
      · simp only [pyStrLt, if_pos h1, true_iff]
        rw [digitsToNat_cons, digitsToNat_cons, hlen']
        have : (x.toNat - 48 + 1) * 10 ^ bs.length ≤ (y.toNat - 48) * 10 ^ bs.length :=
          Nat.mul_le_mul_right _ (by omega)
        have hx' : (x.toNat - 48) * 10 ^ bs.length + digitsToNat as
            < (x.toNat - 48 + 1) * 10 ^ bs.length := by
          have := hAlt
          rw [hlen'] at this
          have hexp : (x.toNat - 48 + 1) * 10 ^ bs.length
              = (x.toNat - 48) * 10 ^ bs.length + 10 ^ bs.length := by ring
          omega
        omega
      · by_cases h2 : y.toNat < x.toNat
        · rw [show pyStrLt (x :: as) (y :: bs) = false from by simp [pyStrLt, h1, h2]]
          simp only [Bool.false_eq_true, false_iff, not_lt]
          rw [digitsToNat_cons, digitsToNat_cons, hlen']
          have hk : (y.toNat - 48 + 1) * 10 ^ bs.length ≤ (x.toNat - 48) * 10 ^ bs.length :=
            Nat.mul_le_mul_right _ (by omega)
          calc (y.toNat - 48) * 10 ^ bs.length + digitsToNat bs
              ≤ (y.toNat - 48) * 10 ^ bs.length + 10 ^ bs.length := by omega
            _ = (y.toNat - 48 + 1) * 10 ^ bs.length := by ring
            _ ≤ (x.toNat - 48) * 10 ^ bs.length := hk
            _ ≤ (x.toNat - 48) * 10 ^ bs.length + digitsToNat as := Nat.le_add_right _ _
        · have hxy : x.toNat = y.toNat := by omega
          have hiff := ih bs hlen' (fun c hc => ha c (by simp [hc]))
            (fun c hc => hb c (by simp [hc]))
          simp only [pyStrLt, if_neg h1, if_neg h2]
          rw [hiff, digitsToNat_cons, digitsToNat_cons, hlen', hxy]
          omega

/- Inversion of the serial-number recognizer. -/

lemma matchSerialAt_inv_digits (s g0 e : List Char) (h : matchSerialAt s = some (g0, e)) :
    e = s.takeWhile isDigitCh ∧ e ≠ [] := by
  unfold matchSerialAt at h
  by_cases hd : s.takeWhile isDigitCh = []
  · rw [if_pos hd] at h; cases h
  · rw [if_neg hd] at h
    dsimp only at h
    split at h
    · cases h
    · split at h
      · split at h
        · injection h with h
          have h1 := congrArg Prod.snd h
          simp only at h1
          subst h1
          exact ⟨rfl, hd⟩
        · cases h
      · cases h

lemma searchSerialAux_digits (s : List Char) : ∀ g0 e : List Char,
    searchSerialAux s = some (g0, e) → e ≠ [] ∧ ∀ c ∈ e, isDigitCh c = true := by
  induction s with
  | nil => intro g0 e h; cases h
  | cons c rest ih =>
    intro g0 e h
    unfold searchSerialAux at h
    cases hm : matchSerialAt (c :: rest) with
    | some r =>
      obtain ⟨a, b⟩ := r
      rw [hm] at h
      injection h with h
      rw [Prod.mk.injEq] at h
      obtain ⟨h1, h2⟩ := h
      rw [h1, h2] at hm
      obtain ⟨he, hne⟩ := matchSerialAt_inv_digits (c :: rest) g0 e hm
      exact ⟨hne, fun x hx => List.mem_takeWhile_imp (he ▸ hx)⟩
    | none =>
      rw [hm] at h
      exact ih g0 e h

/- Adjacent-pair chains: computable checker, transfer to Chain', and
construction/destruction helpers. -/

lemma chainB_iff (p : Char → Char → Bool) : ∀ l : List Char,
    chainB p l = true ↔ List.Chain' (fun x y => p x y = true) l := by
  intro l
  induction l with
  | nil => simp [chainB]
  | cons x rest ih =>
    cases rest with
    | nil => simp [chainB]
    | cons y t =>
      rw [show chainB p (x :: y :: t) = (p x y && chainB p (y :: t)) from rfl,
        List.chain'_cons, Bool.and_eq_true, ih]

lemma chain_append_bool (p : Char → Char → Bool) (a b : List Char)
    (ha : List.Chain' (fun x y => p x y = true) a)
    (hb : List.Chain' (fun x y => p x y = true) b)
    (hx : ∀ x y, a.getLast? = some x → b.head? = some y → p x y = true) :
    List.Chain' (fun x y => p x y = true) (a ++ b) :=
  List.chain'_append.mpr ⟨ha, hb, fun x hx' y hy' => hx x y hx' hy'⟩

lemma chain_of_all_snd (p : Char → Char → Bool) (l : List Char)
    (h : ∀ y ∈ l, ∀ x, p x y = true) :
    List.Chain' (fun x y => p x y = true) l := by
  induction l with
  | nil => exact List.chain'_nil
  | cons x rest ih =>
    cases rest with
    | nil => exact List.chain'_singleton x
    | cons y t =>
      rw [List.chain'_cons]
      exact ⟨h y (by simp) x, ih (fun z hz x' => h z (by simp [hz]) x')⟩

lemma chain_pair (R : Char → Char → Prop) (l : List Char) (h : List.Chain' R l)
    (i : Nat) (hi : i + 1 < l.length) :
    R (l.get ⟨i, by omega⟩) (l.get ⟨i + 1, hi⟩) := by
  exact List.chain'_iff_get.mp h i (by omega)

lemma not_infix_of_chain (R : Char → Char → Prop) (X pat : List Char)
    (hc : List.Chain' R X) (hp : ¬ List.Chain' R pat) : ¬ pat <:+: X := by
  intro hinf
  obtain ⟨u, v, huv⟩ := hinf
  rw [← huv] at hc
  rw [List.append_assoc] at hc
  have h1 := (List.chain'_append.mp hc).2.1
  exact hp (List.chain'_append.mp h1).1

/- takeWhile and dropWhile over concatenations. -/

lemma takeWhile_append_all (p : Char → Bool) (l1 l2 : List Char)
    (h : ∀ c ∈ l1, p c = true) :
    (l1 ++ l2).takeWhile p = l1 ++ l2.takeWhile p := by
  induction l1 with
  | nil => simp
  | cons c t ih =>
    simp only [List.cons_append, List.takeWhile_cons, h c (by simp), if_true]
    rw [ih (fun x hx => h x (by simp [hx]))]

lemma dropWhile_append_all (p : Char → Bool) (l1 l2 : List Char)
    (h : ∀ c ∈ l1, p c = true) :
    (l1 ++ l2).dropWhile p = l2.dropWhile p := by
  induction l1 with
  | nil => simp
  | cons c t ih =>
    simp only [List.cons_append, List.dropWhile_cons, h c (by simp), if_true]
    exact ih (fun x hx => h x (by simp [hx]))

lemma takeWhile_cons_false (p : Char → Bool) (c : Char) (l : List Char)
    (h : p c = false) : (c :: l).takeWhile p = [] := by
  simp [List.takeWhile_cons, h]

lemma dropWhile_cons_false (p : Char → Bool) (c : Char) (l : List Char)
    (h : p c = false) : (c :: l).dropWhile p = c :: l := by
  simp [List.dropWhile_cons, h]

/- Slicing: a pattern that is a prefix of some tail lies inside any
sufficiently long initial segment. -/

lemma take_of_le_length (l : List Char) (n : Nat) (h : l.length ≤ n) : l.take n = l :=
  List.take_of_length_le h

lemma infix_take_of_prefix_drop (t l : List Char) (q n : Nat)
    (h : t <+: l.drop q) (h1 : q + t.length ≤ n) (h2 : n ≤ l.length) :
    t <:+: l.take n := by
  obtain ⟨rest, hrest⟩ := h
  have hql : q ≤ l.length := by omega
  have hlen : (l.take q).length = q := by
    rw [List.length_take]
    omega
  refine ⟨l.take q, rest.take (n - q - t.length), ?_⟩
  conv_rhs => rw [← List.take_append_drop q l, ← hrest]
  rw [List.take_append_eq_append_take, hlen,
    take_of_le_length (l.take q) n (by omega),
    List.take_append_eq_append_take,
    take_of_le_length t (n - q) (by omega), List.append_assoc]

lemma prefix_getElem (t l : List Char) (h : t <+: l) (i : Nat) (hi : i < t.length)
    (hl : i < l.length) : l[i] = t[i] := by
  obtain ⟨r, rfl⟩ := h
  exact List.getElem_append_left hi

/- replaceAll and occurrences. -/

lemma isPrefixOf_head (p0 c : Char) (pt z : List Char)
    (h : (p0 :: pt).isPrefixOf (c :: z) = true) : p0 = c := by
  obtain ⟨r, hr⟩ := List.isPrefixOf_iff_prefix.mp h
  have h2 := congrArg List.head? hr
  simpa using h2

lemma replaceAll_head_match (pat rep Y : List Char) (hp : pat ≠ []) :
    replaceAll pat rep (pat ++ Y) = rep ++ replaceAll pat rep Y := by
  cases hpat : pat with
  | nil => exact absurd hpat hp
  | cons p0 pt =>
    rw [← hpat]
    have hpre : pat.isPrefixOf (pat ++ Y) = true :=
      List.isPrefixOf_iff_prefix.mpr (List.prefix_append pat Y)
    cases hpy : pat ++ Y with
    | nil =>
      exact absurd (by rw [hpat] at hpy; exact hpy) (by simp [hpat])
    | cons c z =>
      rw [← hpy]
      rw [replaceAll_pos pat rep (pat ++ Y) ⟨hp, hpre⟩, List.drop_left]

lemma replaceAll_skip (pat rep : List Char) :
    ∀ X : List Char, ¬ pat <:+: X → replaceAll pat rep X = X := by
  intro X
  induction X with
  | nil => intro _; rfl
  | cons c rest ih =>
    intro hX
    have hnp : ¬ (pat ≠ [] ∧ pat.isPrefixOf (c :: rest) = true) := by
      rintro ⟨-, hpre⟩
      exact hX (List.isPrefixOf_iff_prefix.mp hpre).isInfix
    rw [replaceAll_neg pat rep c rest hnp, ih (fun hinf => hX (List.infix_cons hinf))]

lemma replaceAll_append_no_early (pat rep : List Char) (_hp : pat ≠ []) :
    ∀ (X Y : List Char), (∀ i, i < X.length → ¬ pat <+: (X ++ Y).drop i) →
      replaceAll pat rep (X ++ Y) = X ++ replaceAll pat rep Y := by
  intro X
  induction X with
  | nil => intro Y _; rfl
  | cons c X' ih =>
    intro Y h
    have hnp : ¬ (pat ≠ [] ∧ pat.isPrefixOf (c :: (X' ++ Y)) = true) := by
      rintro ⟨-, hpre⟩
      exact h 0 (by simp) (by simpa using List.isPrefixOf_iff_prefix.mp hpre)
    rw [List.cons_append, replaceAll_neg pat rep c (X' ++ Y) hnp,
      ih Y (fun i hi => by simpa using h (i + 1) (by simp; omega))]
    rfl

/- Character-class facts. -/

lemma isSpace_toNat (c : Char) (h : isSpace c = true) :
    c.toNat = 32 ∨ c.toNat = 9 ∨ c.toNat = 10 ∨ c.toNat = 13 ∨
    c.toNat = 11 ∨ c.toNat = 12 := by
  simp only [isSpace, Bool.or_eq_true, decide_eq_true_eq] at h
  rcases h with ((((h | h) | h) | h) | h) | h <;> rw [h] <;> simp

lemma space_of_toNat_32 (c : Char) (h : c.toNat = 32) : c = ' ' :=
  char_toNat_inj c ' ' (by rw [h]; rfl)

lemma isSpace_not_digit (c : Char) (h : isSpace c = true) : isDigitCh c = false := by
  cases hd : isDigitCh c
  · rfl
  · obtain ⟨h1, h2⟩ := isDigitCh_bounds c hd
    rcases isSpace_toNat c h with h3 | h3 | h3 | h3 | h3 | h3 <;> omega

lemma isDigit_not_space (c : Char) (h : isDigitCh c = true) : isSpace c = false := by
  cases hs : isSpace c
  · rfl
  · obtain ⟨h1, h2⟩ := isDigitCh_bounds c h
    rcases isSpace_toNat c hs with h3 | h3 | h3 | h3 | h3 | h3 <;> omega

lemma hsOk_toNat (c : Char) (h : hsOk c = true) :
    (48 ≤ c.toNat ∧ c.toNat ≤ 57) ∨ (65 ≤ c.toNat ∧ c.toNat ≤ 90) ∨
    (97 ≤ c.toNat ∧ c.toNat ≤ 122) ∨ c.toNat = 46 ∨ c.toNat = 45 := by
  simp only [hsOk, isDigitCh, Bool.or_eq_true, Bool.and_eq_true,
    decide_eq_true_eq] at h
  rcases h with (((h | h) | h) | h) | h
  · exact Or.inr (Or.inl h)
  · exact Or.inr (Or.inr (Or.inl h))
  · exact Or.inl h
  · rw [h]; simp
  · rw [h]; simp

lemma hsOk_not_space (c : Char) (h : hsOk c = true) : isSpace c = false := by
  cases hs : isSpace c
  · rfl
  · rcases hsOk_toNat c h with ⟨h1, h2⟩ | ⟨h1, h2⟩ | ⟨h1, h2⟩ | h1 | h1 <;>
      rcases isSpace_toNat c hs with h3 | h3 | h3 | h3 | h3 | h3 <;> omega

lemma hsOk_ne_space (c : Char) (h : hsOk c = true) : c ≠ ' ' := by
  intro hc
  rw [hc] at h
  have := hsOk_not_space ' ' h
  simp [isSpace] at this

lemma hsOk_ne_underscore (c : Char) (h : hsOk c = true) : c ≠ '_' := by
  intro hc
  rw [hc] at h
  have h95 : ('_').toNat = 95 := rfl
  rcases hsOk_toNat '_' h with ⟨h1, h2⟩ | ⟨h1, h2⟩ | ⟨h1, h2⟩ | h1 | h1 <;> omega

lemma chain_noLSb_of_no_space (l : List Char) (h : ∀ c ∈ l, isSpace c = false) :
    List.Chain' (fun x y => noLSb x y = true) l := by
  refine chain_of_all_snd noLSb l ?_
  intro y hy x
  have hys : isSpace y = false := h y hy
  have : y ≠ ' ' := by
    intro hc
    rw [hc] at hys
    simp [isSpace] at hys
  simp [noLSb, this]

lemma chain_noUUb_of_no_underscore (l : List Char) (h : ∀ c ∈ l, c ≠ '_') :
    List.Chain' (fun x y => noUUb x y = true) l := by
  refine chain_of_all_snd noUUb l ?_
  intro y hy x
  simp [noUUb, h y hy]

/- Full inversion, the positive case, and leftmost-scan behavior of the
serial recognizer. -/

lemma matchSerialAt_inv (s g0 d : List Char) (h : matchSerialAt s = some (g0, d)) :
    ∃ w1 w2 rest : List Char,
      s = d ++ w1 ++ ';' :: (w2 ++ snLit ++ rest) ∧
      d ≠ [] ∧ (∀ c ∈ d, isDigitCh c = true) ∧
      (∀ c ∈ w1, isSpace c = true) ∧ (∀ c ∈ w2, isSpace c = true) ∧
      g0 = d ++ w1 ++ ';' :: (w2 ++ snLit) := by
  unfold matchSerialAt at h
  dsimp only at h
  by_cases hd : s.takeWhile isDigitCh = []
  · rw [if_pos hd] at h; cases h
  · rw [if_neg hd] at h
    cases hm : (s.dropWhile isDigitCh).dropWhile isSpace with
    | nil => rw [hm] at h; cases h
    | cons c s3 =>
      rw [hm] at h
      dsimp only at h
      by_cases hc : c = ';'
      · rw [if_pos hc] at h
        by_cases hp : ("serial number".data).isPrefixOf (s3.dropWhile isSpace) = true
        · rw [if_pos hp] at h
          injection h with h
          rw [Prod.mk.injEq] at h
          obtain ⟨hg0, hdd⟩ := h
          obtain ⟨rest, hrest⟩ := List.isPrefixOf_iff_prefix.mp hp
          have hs3 : s3 = s3.takeWhile isSpace ++ (snLit ++ rest) := by
            conv_lhs => rw [← List.takeWhile_append_dropWhile isSpace s3]
            rw [← hrest]
            rfl
          have hs1 : s.dropWhile isDigitCh =
              (s.dropWhile isDigitCh).takeWhile isSpace ++ (c :: s3) := by
            conv_lhs => rw [← List.takeWhile_append_dropWhile isSpace (s.dropWhile isDigitCh)]
            rw [hm]
          refine ⟨(s.dropWhile isDigitCh).takeWhile isSpace, s3.takeWhile isSpace, rest,
            ?_, ?_, ?_, ?_, ?_, ?_⟩
          · conv_lhs =>
              rw [← List.takeWhile_append_dropWhile isDigitCh s, hs1, hs3]
            rw [hdd, hc]
            simp [List.append_assoc]
          · rw [← hdd]; exact hd
          · intro x hx; rw [← hdd] at hx; exact List.mem_takeWhile_imp hx
          · intro x hx; exact List.mem_takeWhile_imp hx
          · intro x hx; exact List.mem_takeWhile_imp hx
          · rw [← hg0, hdd, hc]
            rfl
        · rw [if_neg hp] at h; cases h
      · rw [if_neg hc] at h; cases h

lemma matchSerialAt_serial (σ tail2 : List Char) (hσn : σ ≠ [])
    (hσd : ∀ c ∈ σ, isDigitCh c = true) :
    matchSerialAt (σ ++ serialTail ++ tail2) = some (σ ++ serialTail, σ) := by
  have hdec : serialTail = ' ' :: ("    ; serial number".data) := by decide
  have hsp5 : ∀ c ∈ ("     ".data : List Char), isSpace c = true := by decide
  have hA : σ ++ serialTail ++ tail2 = σ ++ (' ' :: ("    ; serial number".data ++ tail2)) := by
    rw [List.append_assoc, hdec]
    rfl
  have htw : (σ ++ serialTail ++ tail2).takeWhile isDigitCh = σ := by
    rw [hA, takeWhile_append_all isDigitCh σ _ hσd,
      takeWhile_cons_false isDigitCh ' ' _ (by decide)]
    simp
  have hdw : (σ ++ serialTail ++ tail2).dropWhile isDigitCh =
      ' ' :: ("    ; serial number".data ++ tail2) := by
    rw [hA, dropWhile_append_all isDigitCh σ _ hσd,
      dropWhile_cons_false isDigitCh ' ' _ (by decide)]
  have hsp : ' ' :: ("    ; serial number".data ++ tail2) =
      "     ".data ++ (';' :: ((' ' :: snLit) ++ tail2)) := by
    rw [show ("    ; serial number".data : List Char) =
      "    ".data ++ ';' :: (' ' :: snLit) from by decide]
    rfl
  have hdw2 : (' ' :: ("    ; serial number".data ++ tail2)).dropWhile isSpace =
      ';' :: ((' ' :: snLit) ++ tail2) := by
    rw [hsp, dropWhile_append_all isSpace _ _ hsp5,
      dropWhile_cons_false isSpace ';' _ (by decide)]
  have htw2 : (' ' :: ("    ; serial number".data ++ tail2)).takeWhile isSpace =
      "     ".data := by
    rw [hsp, takeWhile_append_all isSpace _ _ hsp5,
      takeWhile_cons_false isSpace ';' _ (by decide)]
    simp
  have hs3 : ((' ' :: snLit) ++ tail2) = ' ' :: (snLit ++ tail2) := rfl
  have htw3 : ((' ' :: snLit) ++ tail2).takeWhile isSpace = [' '] := by
    rw [hs3, List.takeWhile_cons]
    simp only [show isSpace ' ' = true from by decide, if_true]
    rw [show snLit ++ tail2 = 's' :: ("erial number".data ++ tail2) from rfl,
      takeWhile_cons_false isSpace 's' _ (by decide)]
  have hdw3 : ((' ' :: snLit) ++ tail2).dropWhile isSpace = snLit ++ tail2 := by
    rw [hs3, List.dropWhile_cons]
    simp only [show isSpace ' ' = true from by decide, if_true]
    rw [show snLit ++ tail2 = 's' :: ("erial number".data ++ tail2) from rfl,
      dropWhile_cons_false isSpace 's' _ (by decide)]
  simp only [matchSerialAt]
  rw [htw, hdw, if_neg hσn, htw2, hdw2]
  dsimp only
  rw [if_pos rfl, htw3]
  rw [show ("serial number".data).isPrefixOf
      (((' ' :: snLit) ++ tail2).dropWhile isSpace) = true from by
    rw [hdw3]
    exact List.isPrefixOf_iff_prefix.mpr (List.prefix_append snLit tail2)]
  rw [if_pos rfl, List.append_assoc]
  rw [show ("     ".data : List Char) ++ ';' :: ([' '] ++ "serial number".data) =
    serialTail from by decide]

lemma searchSerialAux_first (r : List Char × List Char) : ∀ (n : Nat) (F : List Char),
    (∀ i, i < n → matchSerialAt (F.drop i) = none) →
    matchSerialAt (F.drop n) = some r →
    searchSerialAux F = some r := by
  intro n
  induction n with
  | zero =>
    intro F hnone hsome
    rw [List.drop_zero] at hsome
    cases F with
    | nil => simp [matchSerialAt] at hsome
    | cons c rest =>
      unfold searchSerialAux
      rw [hsome]
  | succ n ih =>
    intro F hnone hsome
    cases F with
    | nil =>
      rw [List.drop_nil] at hsome
      simp [matchSerialAt] at hsome
    | cons c rest =>
      have h0 := hnone 0 (by omega)
      rw [List.drop_zero] at h0
      unfold searchSerialAux
      rw [h0]
      refine ih rest ?_ ?_
      · intro i hi
        have := hnone (i + 1) (by omega)
        rwa [List.drop_succ_cons] at this
      · rwa [List.drop_succ_cons] at hsome

lemma dkimMatch_sel (s sel val : List Char) (h : dkimMatch s = some (sel, val)) :
    sel = s.takeWhile (fun c => ! isSpace c) ∧ sel ≠ [] ∧
    (∀ c ∈ sel, isSpace c = false) := by
  have hmain : sel = s.takeWhile (fun c => ! isSpace c) ∧ sel ≠ [] := by
    unfold dkimMatch at h
    dsimp only at h
    by_cases h1 : s.takeWhile (fun c => ! isSpace c) = []
    · rw [if_pos h1] at h; cases h
    · rw [if_neg h1] at h
      split at h
      · cases h
      · split at h
        · split at h
          · cases h
          · split at h
            · split at h
              · cases h
              · split at h
                · split at h
                  · injection h with h
                    rw [Prod.mk.injEq] at h
                    exact ⟨h.1.symm, h.1 ▸ h1⟩
                  · cases h
                · cases h
            · cases h
        · cases h
  refine ⟨hmain.1, hmain.2, ?_⟩
  intro c hc
  rw [hmain.1] at hc
  have := List.mem_takeWhile_imp hc
  simpa using this

/- No occurrence of the serial pattern strictly before the serial line:
the adjacent-pair arguments. -/

lemma chain_of_all_fst (p : Char → Char → Bool) (l : List Char)
    (h : ∀ x ∈ l, ∀ y, p x y = true) :
    List.Chain' (fun x y => p x y = true) l := by
  induction l with
  | nil => exact List.chain'_nil
  | cons x rest ih =>
    cases rest with
    | nil => exact List.chain'_singleton x
    | cons y t =>
      rw [List.chain'_cons]
      exact ⟨h x (by simp) y, ih (fun a ha b => h a (by simp [ha]) b)⟩

lemma chain_noWD_pattern (d w1 w2 : List Char)
    (hd : ∀ c ∈ d, isDigitCh c = true) (h1 : ∀ c ∈ w1, isSpace c = true)
    (h2 : ∀ c ∈ w2, isSpace c = true) :
    List.Chain' (fun x y => noWDb x y = true) (d ++ w1 ++ ';' :: w2) := by
  have hR : ∀ y ∈ w1 ++ ';' :: w2, ∀ x, noWDb x y = true := by
    intro y hy x
    rw [List.mem_append] at hy
    rcases hy with hy | hy
    · simp [noWDb, isSpace_not_digit y (h1 y hy)]
    · rw [List.mem_cons] at hy
      rcases hy with rfl | hy
      · simp [noWDb, show isDigitCh ';' = false from by decide]
      · simp [noWDb, isSpace_not_digit y (h2 y hy)]
  rw [List.append_assoc]
  refine chain_append_bool noWDb d _ ?_ (chain_of_all_snd noWDb _ hR) ?_
  · refine chain_of_all_fst noWDb d ?_
    intro x hx y
    simp [noWDb, isDigit_not_space x (hd x hx)]
  · intro x y _hx hy
    exact hR y (List.mem_of_mem_head? (Option.mem_def.mpr hy)) x

lemma sn_no_early (W V : List Char)
    (hch : List.Chain' (fun x y => noLSb x y = true) W) :
    ∀ q, q < W.length → ¬ (snLit <+: (W ++ snLit ++ V).drop q) := by
  intro q hq hpre
  have h13 : snLit.length = 13 := by decide
  have hlen : (W ++ snLit ++ V).length = W.length + 13 + V.length := by
    rw [List.length_append, List.length_append, h13]
  by_cases hcase : q + 13 ≤ W.length
  · have hinf : snLit <:+: (W ++ snLit ++ V).take W.length := by
      refine infix_take_of_prefix_drop snLit _ q W.length hpre ?_ ?_
      · rw [h13]; omega
      · rw [hlen]; omega
    rw [List.append_assoc, List.take_left] at hinf
    have hnc : ¬ List.Chain' (fun x y => noLSb x y = true) snLit := by
      intro hc
      have hp := chain_pair _ snLit hc 5 (by decide)
      exact absurd hp (by decide)
    exact not_infix_of_chain _ W snLit hch hnc hinf
  · have hdl : W.length - q < ((W ++ snLit ++ V).drop q).length := by
      rw [List.length_drop, hlen]; omega
    have hget := prefix_getElem snLit _ hpre (W.length - q) (by omega) hdl
    rw [List.getElem_drop] at hget
    have hqk : q + (W.length - q) = W.length := by omega
    simp only [hqk] at hget
    have hW : W.length < (W ++ snLit ++ V).length := by rw [hlen]; omega
    have hWq : W.length - q < snLit.length := by omega
    have hsF : (W ++ snLit ++ V)[W.length] = 's' := by
      rw [List.getElem_append_left (by rw [List.length_append, h13]; omega)]
      rw [List.getElem_append_right (le_refl W.length)]
      simp only [Nat.sub_self]
      rfl
    have hs2 : snLit[W.length - q] = 's' := by
      rw [← hget]
      exact hsF
    have hs3 : snLit[W.length - q]? = some 's' := by
      rw [List.getElem?_eq_getElem hWq, hs2]
    have hno : ∀ k, k < 13 → 1 ≤ k → snLit[k]? ≠ some 's' := by decide
    exact hno (W.length - q) (by omega) (by omega) hs3

lemma no_match_before (P σ rest2 : List Char)
    (hch : List.Chain' (fun x y => noLSb x y = true) (P ++ σ ++ "     ; ".data))
    (hPlast : P.getLast? = some ' ')
    (hσn : σ ≠ []) (hσd : ∀ c ∈ σ, isDigitCh c = true) :
    ∀ i, i < P.length →
      matchSerialAt ((P ++ σ ++ serialTail ++ rest2).drop i) = none := by
  intro i hi
  cases hmatch : matchSerialAt ((P ++ σ ++ serialTail ++ rest2).drop i) with
  | none => rfl
  | some r =>
    exfalso
    obtain ⟨g0, d⟩ := r
    obtain ⟨w1, w2, rest', hdecomp, hdne, hdd, hw1, hw2, _hg0⟩ :=
      matchSerialAt_inv _ _ _ hmatch
    have hshape : d ++ w1 ++ ';' :: (w2 ++ snLit ++ rest') =
        (d ++ w1 ++ ';' :: w2) ++ (snLit ++ rest') := by
      simp [List.append_assoc]
    have hst20 : serialTail.length = 20 := by decide
    have hσp : 0 < σ.length := List.length_pos.mpr hσn
    have hFlen : (P ++ σ ++ serialTail ++ rest2).length =
        P.length + σ.length + 20 + rest2.length := by
      simp only [List.length_append, hst20]
    have hpre : snLit <+:
        (P ++ σ ++ serialTail ++ rest2).drop (i + (d ++ w1 ++ ';' :: w2).length) := by
      rw [← List.drop_drop, hdecomp, hshape, List.drop_left]
      exact List.prefix_append snLit rest'
    by_cases hq : i + (d ++ w1 ++ ';' :: w2).length ≤ P.length
    · have hFW : P ++ σ ++ serialTail ++ rest2 =
          (P ++ σ ++ "     ; ".data) ++ snLit ++ rest2 := by
        rw [show serialTail = "     ; ".data ++ snLit from by decide]
        simp [List.append_assoc]
      rw [hFW] at hpre
      have hsp7 : ("     ; ".data : List Char).length = 7 := by decide
      have hlenW : (P ++ σ ++ "     ; ".data).length = P.length + σ.length + 7 := by
        rw [List.length_append, List.length_append, hsp7]
      refine sn_no_early (P ++ σ ++ "     ; ".data) rest2 hch
        (i + (d ++ w1 ++ ';' :: w2).length) ?_ hpre
      rw [hlenW]
      omega
    · have hπpre : (d ++ w1 ++ ';' :: w2) <+: (P ++ σ ++ serialTail ++ rest2).drop i := by
        refine ⟨snLit ++ rest', ?_⟩
        rw [hdecomp, hshape]
      have hπchain := chain_noWD_pattern d w1 w2 hdd hw1 hw2
      have hj1 : (P.length - i - 1) + 1 < (d ++ w1 ++ ';' :: w2).length := by omega
      have hdropLen : (P.length - i - 1) + 1 <
          ((P ++ σ ++ serialTail ++ rest2).drop i).length := by
        rw [List.length_drop, hFlen]; omega
      have hg1 := prefix_getElem _ _ hπpre (P.length - i - 1) (by omega) (by omega)
      have hg2 := prefix_getElem _ _ hπpre (P.length - i) (by omega) (by omega)
      rw [List.getElem_drop] at hg1
      rw [List.getElem_drop] at hg2
      have hi1 : i + (P.length - i - 1) = P.length - 1 := by omega
      have hi2 : i + (P.length - i) = P.length := by omega
      simp only [hi1] at hg1
      simp only [hi2] at hg2
      have hPlt : P.length - 1 < P.length := by omega
      have hPe : P[P.length - 1] = ' ' := by
        rw [List.getLast?_eq_getElem?] at hPlast
        rw [List.getElem?_eq_getElem hPlt] at hPlast
        exact Option.some.inj hPlast
      have hB1 : P.length - 1 < (P ++ σ ++ serialTail ++ rest2).length := by
        rw [hFlen]; omega
      have hB2 : P.length < (P ++ σ ++ serialTail ++ rest2).length := by
        rw [hFlen]; omega
      have hF1 : (P ++ σ ++ serialTail ++ rest2)[P.length - 1] = ' ' := by
        rw [List.getElem_append_left (by rw [List.length_append, List.length_append]; omega)]
        rw [List.getElem_append_left (by rw [List.length_append]; omega)]
        rw [List.getElem_append_left (by omega)]
        exact hPe
      have hF2 : (P ++ σ ++ serialTail ++ rest2)[P.length] = σ[0] := by
        rw [List.getElem_append_left (by rw [List.length_append, List.length_append]; omega)]
        rw [List.getElem_append_left (by rw [List.length_append]; omega)]
        rw [List.getElem_append_right (le_refl P.length)]
        simp
      have hσ0 : isDigitCh (σ[0]) = true := hσd _ (List.getElem_mem hσp)
      have hpair := chain_pair (fun x y => noWDb x y = true) _ hπchain (P.length - i - 1) hj1
      rw [List.get_eq_getElem, List.get_eq_getElem] at hpair
      have hix : P.length - i - 1 + 1 = P.length - i := by omega
      simp only [hix] at hpair
      rw [← hg1, ← hg2, hF1, hF2] at hpair
      have hfalse : noWDb ' ' (σ[0]) = false := by
        simp [noWDb, hσ0, show isSpace ' ' = true from by decide]
      rw [hfalse] at hpair
      exact Bool.noConfusion hpair

/- Chain-gluing combinators and the decomposition of the rendered zone
around the serial placeholder. -/

lemma mem_of_getLast (l : List Char) (x : Char) (h : l.getLast? = some x) : x ∈ l := by
  rw [List.getLast?_eq_getElem?] at h
  exact List.getElem?_mem h

lemma noLSb_of_fst (x y : Char) (h : x ≠ 'l') : noLSb x y = true := by
  simp [noLSb, h]

lemma noLSb_of_snd (x y : Char) (h : y ≠ ' ') : noLSb x y = true := by
  simp [noLSb, h]

lemma noUUb_of_fst (x y : Char) (h : x ≠ '_') : noUUb x y = true := by
  simp [noUUb, h]

lemma noUUb_of_snd (x y : Char) (h : y ≠ '_') : noUUb x y = true := by
  simp [noUUb, h]

lemma chain_of_chainB (p : Char → Char → Bool) (l : List Char) (h : chainB p l = true) :
    List.Chain' (fun x y => p x y = true) l := (chainB_iff p l).mp h

lemma chain_lit_left (p : Char → Char → Bool) (L R : List Char) (a : Char)
    (hL : List.Chain' (fun x y => p x y = true) L)
    (hR : List.Chain' (fun x y => p x y = true) R)
    (hlast : L.getLast? = some a) (ha : ∀ y, p a y = true) :
    List.Chain' (fun x y => p x y = true) (L ++ R) := by
  refine chain_append_bool p L R hL hR ?_
  intro x y hx _hy
  rw [hlast] at hx
  rw [← Option.some.inj hx]
  exact ha y

lemma chain_lit_right (p : Char → Char → Bool) (L R : List Char) (b : Char)
    (hL : List.Chain' (fun x y => p x y = true) L)
    (hR : List.Chain' (fun x y => p x y = true) R)
    (hhead : R.head? = some b) (hb : ∀ x, p x b = true) :
    List.Chain' (fun x y => p x y = true) (L ++ R) := by
  refine chain_append_bool p L R hL hR ?_
  intro x y _hx hy
  rw [hhead] at hy
  rw [← Option.some.inj hy]
  exact hb x

lemma chain_class_left (p : Char → Char → Bool) (L R : List Char)
    (hL : List.Chain' (fun x y => p x y = true) L)
    (hR : List.Chain' (fun x y => p x y = true) R)
    (hcls : ∀ x ∈ L, ∀ y, p x y = true) :
    List.Chain' (fun x y => p x y = true) (L ++ R) := by
  refine chain_append_bool p L R hL hR ?_
  intro x y hx _hy
  exact hcls x (mem_of_getLast L x hx) y

lemma rawZone_decomp (domain : String) (env : Env) (records : List Record) :
    (rawZone domain env records).data =
      zonePre domain env.PUBLIC_HOSTNAME ++ serialPat ++ serialTail ++ zonePost records := by
  simp [rawZone, zoneHeader, zonePre, zonePost, String.data_append,
    zhA1, zhA2, zhA3, zhA4, serialPat, serialTail, zhQ0, List.append_assoc]

lemma zonePre_last (domain primary : String) :
    (zonePre domain primary).getLast? = some ' ' := by
  unfold zonePre
  rw [List.getLast?_append]
  rw [show zhA4.getLast? = some ' ' from by decide]
  rfl

lemma zonePre_no_underscore (domain primary : String)
    (hd : ∀ c ∈ domain.data, hsOk c = true) (hp : ∀ c ∈ primary.data, hsOk c = true) :
    ∀ c ∈ zonePre domain primary, c ≠ '_' := by
  intro c hc
  unfold zonePre at hc
  simp only [List.mem_append] at hc
  rcases hc with ((((((hc | hc) | hc) | hc) | hc) | hc) | hc)
  · exact (by decide : ∀ c ∈ zhA1, c ≠ '_') c hc
  · exact hsOk_ne_underscore c (hd c hc)
  · exact (by decide : ∀ c ∈ zhA2, c ≠ '_') c hc
  · exact hsOk_ne_underscore c (hp c hc)
  · exact (by decide : ∀ c ∈ zhA3, c ≠ '_') c hc
  · exact hsOk_ne_underscore c (hp c hc)
  · exact (by decide : ∀ c ∈ zhA4, c ≠ '_') c hc

lemma digit_ne_l (c : Char) (h : isDigitCh c = true) : c ≠ 'l' := by
  intro hc
  rw [hc] at h
  obtain ⟨h1, h2⟩ := isDigitCh_bounds 'l' h
  have : ('l').toNat = 108 := rfl
  omega

lemma chain_W (domain primary : String) (σ : List Char)
    (hd : ∀ c ∈ domain.data, hsOk c = true) (hp : ∀ c ∈ primary.data, hsOk c = true)
    (hσ : ∀ c ∈ σ, isDigitCh c = true) :
    List.Chain' (fun x y => noLSb x y = true)
      (zonePre domain primary ++ σ ++ "     ; ".data) := by
  have hre : zonePre domain primary ++ σ ++ "     ; ".data =
      zhA1 ++ (domain.data ++ (zhA2 ++ (primary.data ++ (zhA3 ++ (primary.data ++
        (zhA4 ++ (σ ++ "     ; ".data))))))) := by
    simp [zonePre, List.append_assoc]
  rw [hre]
  have hdc : List.Chain' (fun x y => noLSb x y = true) domain.data :=
    chain_noLSb_of_no_space _ (fun c hc => hsOk_not_space c (hd c hc))
  have hpc : List.Chain' (fun x y => noLSb x y = true) primary.data :=
    chain_noLSb_of_no_space _ (fun c hc => hsOk_not_space c (hp c hc))
  have hσc : List.Chain' (fun x y => noLSb x y = true) σ :=
    chain_noLSb_of_no_space _ (fun c hc => isDigit_not_space c (hσ c hc))
  refine chain_lit_left noLSb zhA1 _ ' ' (chain_of_chainB _ _ (by decide)) ?_
    (by decide) (fun y => noLSb_of_fst ' ' y (by decide))
  refine chain_lit_right noLSb domain.data _ '.' hdc ?_
    (by rw [List.head?_append_of_ne_nil zhA2 (by decide)]; decide)
    (fun x => noLSb_of_snd x '.' (by decide))
  refine chain_lit_left noLSb zhA2 _ '.' (chain_of_chainB _ _ (by decide)) ?_
    (by decide) (fun y => noLSb_of_fst '.' y (by decide))
  refine chain_lit_right noLSb primary.data _ '.' hpc ?_
    (by rw [List.head?_append_of_ne_nil zhA3 (by decide)]; decide)
    (fun x => noLSb_of_snd x '.' (by decide))
  refine chain_lit_left noLSb zhA3 _ '.' (chain_of_chainB _ _ (by decide)) ?_
    (by decide) (fun y => noLSb_of_fst '.' y (by decide))
  refine chain_lit_right noLSb primary.data _ '.' hpc ?_
    (by rw [List.head?_append_of_ne_nil zhA4 (by decide)]; decide)
    (fun x => noLSb_of_snd x '.' (by decide))
  refine chain_lit_left noLSb zhA4 _ ' ' (chain_of_chainB _ _ (by decide)) ?_
    (by decide) (fun y => noLSb_of_fst ' ' y (by decide))
  refine chain_class_left noLSb σ _ hσc (chain_of_chainB _ _ (by decide)) ?_
  intro x hx y
  exact noLSb_of_fst x y (digit_ne_l x (hσ x hx))

/- The serial round trip: substituting the placeholder produces a file in
which the recognizer finds exactly the substituted serial, and replacing
its whole match by the placeholder text recovers the render. -/

lemma snLit_not_chainL : ¬ List.Chain' (fun x y => noLSb x y = true) snLit := by
  intro hc
  have hp := chain_pair _ snLit hc 5 (by decide)
  exact absurd hp (by decide)

lemma serialPat_not_chainU : ¬ List.Chain' (fun x y => noUUb x y = true) serialPat := by
  intro hc
  have hp := chain_pair _ serialPat hc 0 (by decide)
  exact absurd hp (by decide)

lemma serialPat_no_early (X Y : List Char) (h : ∀ c ∈ X, c ≠ '_') :
    ∀ i, i < X.length → ¬ serialPat <+: (X ++ Y).drop i := by
  intro i hi hpre
  have h0 := prefix_getElem serialPat _ hpre 0 (by decide)
    (by rw [List.length_drop, List.length_append]; omega)
  rw [List.getElem_drop] at h0
  simp only [Nat.add_zero] at h0
  rw [List.getElem_append_left hi] at h0
  have hu : X[i] = '_' := by rw [h0]; rfl
  exact h (X[i]) (List.getElem_mem hi) hu

lemma run1_content (Pz Qz σ : List Char) (hP : ∀ c ∈ Pz, c ≠ '_')
    (hQU : List.Chain' (fun x y => noUUb x y = true) (serialTail ++ Qz)) :
    replaceAll serialPat σ (Pz ++ serialPat ++ serialTail ++ Qz) =
      Pz ++ σ ++ serialTail ++ Qz := by
  have hassoc : Pz ++ serialPat ++ serialTail ++ Qz =
      Pz ++ (serialPat ++ (serialTail ++ Qz)) := by simp [List.append_assoc]
  rw [hassoc]
  rw [replaceAll_append_no_early serialPat σ (by decide) Pz (serialPat ++ (serialTail ++ Qz))
    (fun i hi => serialPat_no_early Pz (serialPat ++ (serialTail ++ Qz)) hP i hi)]
  rw [replaceAll_head_match serialPat σ (serialTail ++ Qz) (by decide)]
  rw [replaceAll_skip serialPat σ (serialTail ++ Qz)
    (not_infix_of_chain _ (serialTail ++ Qz) serialPat hQU serialPat_not_chainU)]
  simp [List.append_assoc]

lemma searchSerial_of_decomp (Pz Qz σ : List Char)
    (hch : List.Chain' (fun x y => noLSb x y = true) (Pz ++ σ ++ "     ; ".data))
    (hPlast : Pz.getLast? = some ' ')
    (hσn : σ ≠ []) (hσd : ∀ c ∈ σ, isDigitCh c = true) :
    searchSerialAux (Pz ++ σ ++ serialTail ++ Qz) = some (σ ++ serialTail, σ) := by
  refine searchSerialAux_first (σ ++ serialTail, σ) Pz.length _ ?_ ?_
  · intro i hi
    exact no_match_before Pz σ Qz hch hPlast hσn hσd i hi
  · rw [show Pz ++ σ ++ serialTail ++ Qz = Pz ++ (σ ++ serialTail ++ Qz) from by
      simp [List.append_assoc], List.drop_left]
    exact matchSerialAt_serial σ Qz hσn hσd

lemma g0_no_early (Pz σ Qz : List Char)
    (hch : List.Chain' (fun x y => noLSb x y = true) (Pz ++ σ ++ "     ; ".data)) :
    ∀ i, i < Pz.length →
      ¬ (σ ++ serialTail) <+: (Pz ++ σ ++ serialTail ++ Qz).drop i := by
  intro i hi hpre
  obtain ⟨t, ht⟩ := hpre
  have hsnp : snLit <+:
      (Pz ++ σ ++ serialTail ++ Qz).drop (i + (σ ++ "     ; ".data).length) := by
    refine ⟨t, ?_⟩
    have hgf : σ ++ serialTail ++ t = (σ ++ "     ; ".data) ++ (snLit ++ t) := by
      rw [show serialTail = "     ; ".data ++ snLit from by decide]
      simp [List.append_assoc]
    rw [← List.drop_drop, ← ht, hgf, List.drop_left]
  have hFW : Pz ++ σ ++ serialTail ++ Qz =
      (Pz ++ σ ++ "     ; ".data) ++ snLit ++ Qz := by
    rw [show serialTail = "     ; ".data ++ snLit from by decide]
    simp [List.append_assoc]
  rw [hFW] at hsnp
  refine sn_no_early (Pz ++ σ ++ "     ; ".data) Qz hch _ ?_ hsnp
  have h7 : ("     ; ".data : List Char).length = 7 := by decide
  rw [List.length_append, List.length_append, h7, List.length_append]
  omega

lemma g0_absent (σ Qz : List Char)
    (hQ : List.Chain' (fun x y => noLSb x y = true) Qz) :
    ¬ (σ ++ serialTail) <:+: Qz := by
  intro hinf
  have hsn : snLit <:+: σ ++ serialTail := by
    refine ⟨σ ++ "     ; ".data, [], ?_⟩
    rw [List.append_nil, show serialTail = "     ; ".data ++ snLit from by decide]
    simp [List.append_assoc]
  exact not_infix_of_chain _ Qz snLit hQ snLit_not_chainL (hsn.trans hinf)

lemma back_replace (Pz Qz σ : List Char)
    (hch : List.Chain' (fun x y => noLSb x y = true) (Pz ++ σ ++ "     ; ".data))
    (hQ : List.Chain' (fun x y => noLSb x y = true) Qz) :
    replaceAll (σ ++ serialTail) (serialPat ++ serialTail)
        (Pz ++ σ ++ serialTail ++ Qz) =
      Pz ++ serialPat ++ serialTail ++ Qz := by
  have hg0ne : σ ++ serialTail ≠ [] := by
    intro h
    have hlen := congrArg List.length h
    rw [List.length_append, show serialTail.length = 20 from by decide] at hlen
    simp at hlen
  have hassoc : Pz ++ σ ++ serialTail ++ Qz = Pz ++ ((σ ++ serialTail) ++ Qz) := by
    simp [List.append_assoc]
  rw [hassoc]
  rw [replaceAll_append_no_early (σ ++ serialTail) (serialPat ++ serialTail) hg0ne Pz
    ((σ ++ serialTail) ++ Qz)
    (fun i hi => by
      have hne := g0_no_early Pz σ Qz hch i hi
      rwa [hassoc] at hne)]
  rw [replaceAll_head_match (σ ++ serialTail) (serialPat ++ serialTail) Qz hg0ne]
  rw [replaceAll_skip (σ ++ serialTail) (serialPat ++ serialTail) Qz
    (g0_absent σ Qz hQ)]
  simp [List.append_assoc]

lemma zoneInv_of_write (domain : String) (env : Env) (records : List Record) (σ : List Char)
    (hσn : σ ≠ []) (hσd : ∀ c ∈ σ, isDigitCh c = true)
    (hd : ∀ c ∈ domain.data, hsOk c = true)
    (hp : ∀ c ∈ env.PUBLIC_HOSTNAME.data, hsOk c = true)
    (hQL : List.Chain' (fun x y => noLSb x y = true) (zonePost records))
    (hQU : List.Chain' (fun x y => noUUb x y = true) (serialTail ++ zonePost records)) :
    zoneInv (rawZone domain env records)
      (replaceAllS "__SERIAL__" ⟨σ⟩ (rawZone domain env records)) := by
  have hdecomp := rawZone_decomp domain env records
  have hcontent : (replaceAllS "__SERIAL__" ⟨σ⟩ (rawZone domain env records)).data =
      zonePre domain env.PUBLIC_HOSTNAME ++ σ ++ serialTail ++ zonePost records := by
    show replaceAll serialPat σ (rawZone domain env records).data = _
    rw [hdecomp]
    exact run1_content _ _ σ (zonePre_no_underscore domain _ hd hp) hQU
  refine ⟨σ ++ serialTail, σ, ?_, ?_⟩
  · show searchSerialAux (replaceAllS "__SERIAL__" ⟨σ⟩ (rawZone domain env records)).data = _
    rw [hcontent]
    exact searchSerial_of_decomp _ _ σ (chain_W domain _ σ hd hp hσd) (zonePre_last _ _) hσn hσd
  · apply String.ext
    show replaceAll (σ ++ serialTail) ("__SERIAL__     ; serial number".data)
      (replaceAllS "__SERIAL__" ⟨σ⟩ (rawZone domain env records)).data =
        (rawZone domain env records).data
    rw [hcontent, hdecomp,
      show ("__SERIAL__     ; serial number".data : List Char) = serialPat ++ serialTail
        from by decide]
    exact back_replace _ _ σ (chain_W domain _ σ hd hp hσd) hQL

/- Adjacent-pair chains over the record section of the zone. -/

lemma recordLine_last (r : Record) : (recordLine r).data.getLast? = some '\n' := by
  have hform : (recordLine r).data = ((match r.subdomain with
      | some s => if s = "" then "" else s
      | none => "") ++ "\tIN\t" ++ r.querytype ++ "\t" ++ r.value).data ++ "\n".data := by
    unfold recordLine
    rw [String.data_append]
  rw [hform, List.getLast?_append]
  rfl

lemma chain_renderRecords (p : Char → Char → Bool) (hnl : ∀ y, p '\n' y = true) :
    ∀ records : List Record,
      (∀ r ∈ records, List.Chain' (fun x y => p x y = true) (recordLine r).data) →
      List.Chain' (fun x y => p x y = true) (renderRecords records).data := by
  intro records
  induction records with
  | nil => intro _; exact List.chain'_nil
  | cons r rest ih =>
    intro h
    rw [show (renderRecords (r :: rest)).data =
        (recordLine r).data ++ (renderRecords rest).data from
      String.data_append (recordLine r) (renderRecords rest)]
    refine chain_append_bool p _ _ (h r (by simp)) (ih (fun r' hr' => h r' (by simp [hr']))) ?_
    intro x y hx _hy
    rw [recordLine_last r] at hx
    rw [← Option.some.inj hx]
    exact hnl y

lemma chain_seg3 (p : Char → Char → Bool) (L1 V L2 : List Char) (a b : Char)
    (h1 : chainB p L1 = true) (hla : L1.getLast? = some a) (ha : ∀ y, p a y = true)
    (hV : List.Chain' (fun x y => p x y = true) V)
    (h2 : chainB p L2 = true) (hhb : L2.head? = some b) (hb : ∀ x, p x b = true) :
    List.Chain' (fun x y => p x y = true) (L1 ++ (V ++ L2)) := by
  refine chain_lit_left p L1 _ a (chain_of_chainB p L1 h1) ?_ hla ha
  exact chain_lit_right p V L2 b hV (chain_of_chainB p L2 h2) hhb hb

lemma mem_baseRecords (domain : String) (env : Env) (r : Record)
    (h : r ∈ baseRecords domain env) :
    r = ⟨none, "NS", "ns1." ++ env.PUBLIC_HOSTNAME ++ "."⟩ ∨
    r = ⟨none, "NS", "ns2." ++ env.PUBLIC_HOSTNAME ++ "."⟩ ∨
    r = ⟨none, "A", env.PUBLIC_IP⟩ ∨
    r = ⟨none, "MX", "10 " ++ env.PUBLIC_HOSTNAME ++ "."⟩ ∨
    r = ⟨none, "TXT", "\"v=spf1 mx -all\""⟩ ∨
    r = ⟨some "www", "A", env.PUBLIC_IP⟩ ∨
    r = ⟨some "ns1", "A", env.PUBLIC_IP⟩ ∨
    r = ⟨some "ns2", "A", env.PUBLIC_IP⟩ := by
  unfold baseRecords at h
  rw [List.mem_append] at h
  rcases h with h | h
  · simp only [List.mem_cons, List.not_mem_nil, or_false] at h
    tauto
  · by_cases hd : domain = env.PUBLIC_HOSTNAME
    · rw [if_pos hd] at h
      simp only [List.mem_cons, List.not_mem_nil, or_false] at h
      tauto
    · rw [if_neg hd] at h
      simp at h

lemma build_zone_cases (domain : String) (env : Env) (fs : FS) (records : List Record)
    (hrec : build_zone domain env fs = .ok records) :
    (fsRead fs (dkimRecordPath env) = none ∧ records = baseRecords domain env) ∨
    (∃ content sel val, fsRead fs (dkimRecordPath env) = some content ∧
      dkimMatch content.data = some (sel, val) ∧
      records = baseRecords domain env ++
        [⟨some ⟨sel⟩, "TXT", ⟨val⟩⟩,
         ⟨some "_adsp._domainkey", "TXT", "\"dkim=all\""⟩,
         ⟨some "_dmarc", "TXT", "\"v=DMARC1; p=quarantine\""⟩]) := by
  unfold build_zone at hrec
  dsimp only at hrec
  cases hfs : fsRead fs (dkimRecordPath env) with
  | none =>
    rw [hfs] at hrec
    injection hrec with h
    exact Or.inl ⟨rfl, h.symm⟩
  | some content =>
    rw [hfs] at hrec
    dsimp only at hrec
    cases hdm : dkimMatch content.data with
    | none => rw [hdm] at hrec; cases hrec
    | some sv =>
      obtain ⟨sel, val⟩ := sv
      rw [hdm] at hrec
      injection hrec with h
      exact Or.inr ⟨content, sel, val, rfl, hdm, h.symm⟩

lemma build_zone_congr (domain : String) (env : Env) (fs fs' : FS)
    (h : fsRead fs' (dkimRecordPath env) = fsRead fs (dkimRecordPath env)) :
    build_zone domain env fs' = build_zone domain env fs := by
  unfold build_zone
  rw [h]

lemma lines_noLSb (domain : String) (env : Env) (fs : FS) (records : List Record)
    (hh : ∀ c ∈ env.PUBLIC_HOSTNAME.data, hsOk c = true)
    (hip : ∀ c ∈ env.PUBLIC_IP.data, hsOk c = true)
    (hdkim : ∀ content sel val, fsRead fs (dkimRecordPath env) = some content →
      dkimMatch content.data = some (sel, val) → chainB noLSb val = true)
    (hrec : build_zone domain env fs = .ok records) :
    ∀ r ∈ records, List.Chain' (fun x y => noLSb x y = true) (recordLine r).data := by
  have hH : List.Chain' (fun x y => noLSb x y = true) env.PUBLIC_HOSTNAME.data :=
    chain_noLSb_of_no_space _ (fun c hc => hsOk_not_space c (hh c hc))
  have hI : List.Chain' (fun x y => noLSb x y = true) env.PUBLIC_IP.data :=
    chain_noLSb_of_no_space _ (fun c hc => hsOk_not_space c (hip c hc))
  have hbase : ∀ r ∈ baseRecords domain env,
      List.Chain' (fun x y => noLSb x y = true) (recordLine r).data := by
    intro r hr
    rcases mem_baseRecords domain env r hr with rfl | rfl | rfl | rfl | rfl | rfl | rfl | rfl
    · rw [show (recordLine (⟨none, "NS", "ns1." ++ env.PUBLIC_HOSTNAME ++ "."⟩ : Record)).data =
          "\tIN\tNS\tns1.".data ++ (env.PUBLIC_HOSTNAME.data ++ ".\n".data) from by
        simp [recordLine, String.data_append, List.append_assoc]]
      exact chain_seg3 noLSb _ _ _ '.' '.' (by decide) (by decide)
        (fun y => noLSb_of_fst '.' y (by decide)) hH (by decide) (by decide)
        (fun x => noLSb_of_snd x '.' (by decide))
    · rw [show (recordLine (⟨none, "NS", "ns2." ++ env.PUBLIC_HOSTNAME ++ "."⟩ : Record)).data =
          "\tIN\tNS\tns2.".data ++ (env.PUBLIC_HOSTNAME.data ++ ".\n".data) from by
        simp [recordLine, String.data_append, List.append_assoc]]
      exact chain_seg3 noLSb _ _ _ '.' '.' (by decide) (by decide)
        (fun y => noLSb_of_fst '.' y (by decide)) hH (by decide) (by decide)
        (fun x => noLSb_of_snd x '.' (by decide))
    · rw [show (recordLine (⟨none, "A", env.PUBLIC_IP⟩ : Record)).data =
          "\tIN\tA\t".data ++ (env.PUBLIC_IP.data ++ "\n".data) from by
        simp [recordLine, String.data_append, List.append_assoc]]
      exact chain_seg3 noLSb _ _ _ '\t' '\n' (by decide) (by decide)
        (fun y => noLSb_of_fst '\t' y (by decide)) hI (by decide) (by decide)
        (fun x => noLSb_of_snd x '\n' (by decide))
    · rw [show (recordLine (⟨none, "MX", "10 " ++ env.PUBLIC_HOSTNAME ++ "."⟩ : Record)).data =
          "\tIN\tMX\t10 ".data ++ (env.PUBLIC_HOSTNAME.data ++ ".\n".data) from by
        simp [recordLine, String.data_append, List.append_assoc]]
      exact chain_seg3 noLSb _ _ _ ' ' '.' (by decide) (by decide)
        (fun y => noLSb_of_fst ' ' y (by decide)) hH (by decide) (by decide)
        (fun x => noLSb_of_snd x '.' (by decide))
    · exact chain_of_chainB noLSb _ (by decide)
    · rw [show (recordLine (⟨some "www", "A", env.PUBLIC_IP⟩ : Record)).data =
          "www\tIN\tA\t".data ++ (env.PUBLIC_IP.data ++ "\n".data) from by
        simp [recordLine, String.data_append, List.append_assoc]]
      exact chain_seg3 noLSb _ _ _ '\t' '\n' (by decide) (by decide)
        (fun y => noLSb_of_fst '\t' y (by decide)) hI (by decide) (by decide)
        (fun x => noLSb_of_snd x '\n' (by decide))
    · rw [show (recordLine (⟨some "ns1", "A", env.PUBLIC_IP⟩ : Record)).data =
          "ns1\tIN\tA\t".data ++ (env.PUBLIC_IP.data ++ "\n".data) from by
        simp [recordLine, String.data_append, List.append_assoc]]
      exact chain_seg3 noLSb _ _ _ '\t' '\n' (by decide) (by decide)
        (fun y => noLSb_of_fst '\t' y (by decide)) hI (by decide) (by decide)
        (fun x => noLSb_of_snd x '\n' (by decide))
    · rw [show (recordLine (⟨some "ns2", "A", env.PUBLIC_IP⟩ : Record)).data =
          "ns2\tIN\tA\t".data ++ (env.PUBLIC_IP.data ++ "\n".data) from by
        simp [recordLine, String.data_append, List.append_assoc]]
      exact chain_seg3 noLSb _ _ _ '\t' '\n' (by decide) (by decide)
        (fun y => noLSb_of_fst '\t' y (by decide)) hI (by decide) (by decide)
        (fun x => noLSb_of_snd x '\n' (by decide))
  intro r hr
  rcases build_zone_cases domain env fs records hrec with ⟨_, hrecs⟩ |
    ⟨content, sel, val, hfs, hdm, hrecs⟩
  · subst hrecs
    exact hbase r hr
  · subst hrecs
    rw [List.mem_append] at hr
    rcases hr with hr | hr
    · exact hbase r hr
    · simp only [List.mem_cons, List.not_mem_nil, or_false] at hr
      rcases hr with rfl | rfl | rfl
      · obtain ⟨hseleq, hselne, hselns⟩ := dkimMatch_sel content.data sel val hdm
        have hne : (⟨sel⟩ : String) ≠ "" := by
          intro hcon
          exact hselne (by simpa using congrArg String.data hcon)
        rw [show (recordLine (⟨some ⟨sel⟩, "TXT", ⟨val⟩⟩ : Record)).data =
            sel ++ ("\tIN\tTXT\t".data ++ (val ++ "\n".data)) from by
          simp [recordLine, String.data_append, List.append_assoc, hne]]
        refine chain_lit_right noLSb sel _ '\t'
          (chain_noLSb_of_no_space _ (fun c hc => hselns c hc)) ?_
          (by rw [List.head?_append_of_ne_nil _ (by decide)]; rfl)
          (fun x => noLSb_of_snd x '\t' (by decide))
        refine chain_lit_left noLSb _ _ '\t' (chain_of_chainB _ _ (by decide)) ?_ (by decide)
          (fun y => noLSb_of_fst '\t' y (by decide))
        exact chain_lit_right noLSb val _ '\n'
          (chain_of_chainB _ _ (hdkim content sel val hfs hdm)) (chain_of_chainB _ _ rfl)
          rfl (fun x => noLSb_of_snd x '\n' (by decide))
      · exact chain_of_chainB noLSb _ (by decide)
      · exact chain_of_chainB noLSb _ (by decide)

lemma lines_noUUb (domain : String) (env : Env) (fs : FS) (records : List Record)
    (hh : ∀ c ∈ env.PUBLIC_HOSTNAME.data, hsOk c = true)
    (hip : ∀ c ∈ env.PUBLIC_IP.data, hsOk c = true)
    (hdkim : ∀ content sel val, fsRead fs (dkimRecordPath env) = some content →
      dkimMatch content.data = some (sel, val) →
        chainB noUUb sel = true ∧ chainB noUUb val = true)
    (hrec : build_zone domain env fs = .ok records) :
    ∀ r ∈ records, List.Chain' (fun x y => noUUb x y = true) (recordLine r).data := by
  have hH : List.Chain' (fun x y => noUUb x y = true) env.PUBLIC_HOSTNAME.data :=
    chain_noUUb_of_no_underscore _ (fun c hc => hsOk_ne_underscore c (hh c hc))
  have hI : List.Chain' (fun x y => noUUb x y = true) env.PUBLIC_IP.data :=
    chain_noUUb_of_no_underscore _ (fun c hc => hsOk_ne_underscore c (hip c hc))
  have hbase : ∀ r ∈ baseRecords domain env,
      List.Chain' (fun x y => noUUb x y = true) (recordLine r).data := by
    intro r hr
    rcases mem_baseRecords domain env r hr with rfl | rfl | rfl | rfl | rfl | rfl | rfl | rfl
    · rw [show (recordLine (⟨none, "NS", "ns1." ++ env.PUBLIC_HOSTNAME ++ "."⟩ : Record)).data =
          "\tIN\tNS\tns1.".data ++ (env.PUBLIC_HOSTNAME.data ++ ".\n".data) from by
        simp [recordLine, String.data_append, List.append_assoc]]
      exact chain_seg3 noUUb _ _ _ '.' '.' (by decide) (by decide)
        (fun y => noUUb_of_fst '.' y (by decide)) hH (by decide) (by decide)
        (fun x => noUUb_of_snd x '.' (by decide))
    · rw [show (recordLine (⟨none, "NS", "ns2." ++ env.PUBLIC_HOSTNAME ++ "."⟩ : Record)).data =
          "\tIN\tNS\tns2.".data ++ (env.PUBLIC_HOSTNAME.data ++ ".\n".data) from by
        simp [recordLine, String.data_append, List.append_assoc]]
      exact chain_seg3 noUUb _ _ _ '.' '.' (by decide) (by decide)
        (fun y => noUUb_of_fst '.' y (by decide)) hH (by decide) (by decide)
        (fun x => noUUb_of_snd x '.' (by decide))
    · rw [show (recordLine (⟨none, "A", env.PUBLIC_IP⟩ : Record)).data =
          "\tIN\tA\t".data ++ (env.PUBLIC_IP.data ++ "\n".data) from by
        simp [recordLine, String.data_append, List.append_assoc]]
      exact chain_seg3 noUUb _ _ _ '\t' '\n' (by decide) (by decide)
        (fun y => noUUb_of_fst '\t' y (by decide)) hI (by decide) (by decide)
        (fun x => noUUb_of_snd x '\n' (by decide))
    · rw [show (recordLine (⟨none, "MX", "10 " ++ env.PUBLIC_HOSTNAME ++ "."⟩ : Record)).data =
          "\tIN\tMX\t10 ".data ++ (env.PUBLIC_HOSTNAME.data ++ ".\n".data) from by
        simp [recordLine, String.data_append, List.append_assoc]]
      exact chain_seg3 noUUb _ _ _ ' ' '.' (by decide) (by decide)
        (fun y => noUUb_of_fst ' ' y (by decide)) hH (by decide) (by decide)
        (fun x => noUUb_of_snd x '.' (by decide))
    · exact chain_of_chainB noUUb _ (by decide)
    · rw [show (recordLine (⟨some "www", "A", env.PUBLIC_IP⟩ : Record)).data =
          "www\tIN\tA\t".data ++ (env.PUBLIC_IP.data ++ "\n".data) from by
        simp [recordLine, String.data_append, List.append_assoc]]
      exact chain_seg3 noUUb _ _ _ '\t' '\n' (by decide) (by decide)
        (fun y => noUUb_of_fst '\t' y (by decide)) hI (by decide) (by decide)
        (fun x => noUUb_of_snd x '\n' (by decide))
    · rw [show (recordLine (⟨some "ns1", "A", env.PUBLIC_IP⟩ : Record)).data =
          "ns1\tIN\tA\t".data ++ (env.PUBLIC_IP.data ++ "\n".data) from by
        simp [recordLine, String.data_append, List.append_assoc]]
      exact chain_seg3 noUUb _ _ _ '\t' '\n' (by decide) (by decide)
        (fun y => noUUb_of_fst '\t' y (by decide)) hI (by decide) (by decide)
        (fun x => noUUb_of_snd x '\n' (by decide))
    · rw [show (recordLine (⟨some "ns2", "A", env.PUBLIC_IP⟩ : Record)).data =
          "ns2\tIN\tA\t".data ++ (env.PUBLIC_IP.data ++ "\n".data) from by
        simp [recordLine, String.data_append, List.append_assoc]]
      exact chain_seg3 noUUb _ _ _ '\t' '\n' (by decide) (by decide)
        (fun y => noUUb_of_fst '\t' y (by decide)) hI (by decide) (by decide)
        (fun x => noUUb_of_snd x '\n' (by decide))
  intro r hr
  rcases build_zone_cases domain env fs records hrec with ⟨_, hrecs⟩ |
    ⟨content, sel, val, hfs, hdm, hrecs⟩
  · subst hrecs
    exact hbase r hr
  · subst hrecs
    rw [List.mem_append] at hr
    rcases hr with hr | hr
    · exact hbase r hr
    · simp only [List.mem_cons, List.not_mem_nil, or_false] at hr
      rcases hr with rfl | rfl | rfl
      · obtain ⟨hseleq, hselne, _hselns⟩ := dkimMatch_sel content.data sel val hdm
        obtain ⟨hselU, hvalU⟩ := hdkim content sel val hfs hdm
        have hne : (⟨sel⟩ : String) ≠ "" := by
          intro hcon
          exact hselne (by simpa using congrArg String.data hcon)
        rw [show (recordLine (⟨some ⟨sel⟩, "TXT", ⟨val⟩⟩ : Record)).data =
            sel ++ ("\tIN\tTXT\t".data ++ (val ++ "\n".data)) from by
          simp [recordLine, String.data_append, List.append_assoc, hne]]
        refine chain_lit_right noUUb sel _ '\t'
          (chain_of_chainB _ _ hselU) ?_
          (by rw [List.head?_append_of_ne_nil _ (by decide)]; rfl)
          (fun x => noUUb_of_snd x '\t' (by decide))
        refine chain_lit_left noUUb _ _ '\t' (chain_of_chainB _ _ (by decide)) ?_ (by decide)
          (fun y => noUUb_of_fst '\t' y (by decide))
        exact chain_lit_right noUUb val _ '\n'
          (chain_of_chainB _ _ hvalU) (chain_of_chainB _ _ rfl)
          rfl (fun x => noUUb_of_snd x '\n' (by decide))
      · exact chain_of_chainB noUUb _ (by decide)
      · exact chain_of_chainB noUUb _ (by decide)

lemma chain_zonePost_noLSb (records : List Record)
    (h : ∀ r ∈ records, List.Chain' (fun x y => noLSb x y = true) (recordLine r).data) :
    List.Chain' (fun x y => noLSb x y = true) (zonePost records) := by
  unfold zonePost
  refine chain_lit_left noLSb zhQ0 _ '\n' (chain_of_chainB _ _ (by decide)) ?_ (by decide)
    (fun y => noLSb_of_fst '\n' y (by decide))
  exact chain_renderRecords noLSb (fun y => noLSb_of_fst '\n' y (by decide)) records h

lemma chain_zonePost_noUUb (records : List Record)
    (h : ∀ r ∈ records, List.Chain' (fun x y => noUUb x y = true) (recordLine r).data) :
    List.Chain' (fun x y => noUUb x y = true) (zonePost records) := by
  unfold zonePost
  refine chain_lit_left noUUb zhQ0 _ '\n' (chain_of_chainB _ _ (by decide)) ?_ (by decide)
    (fun y => noUUb_of_fst '\n' y (by decide))
  exact chain_renderRecords noUUb (fun y => noUUb_of_fst '\n' y (by decide)) records h

lemma chain_st_zonePost_noUUb (records : List Record)
    (h : ∀ r ∈ records, List.Chain' (fun x y => noUUb x y = true) (recordLine r).data) :
    List.Chain' (fun x y => noUUb x y = true) (serialTail ++ zonePost records) := by
  refine chain_lit_left noUUb serialTail _ 'r' (chain_of_chainB _ _ (by decide)) ?_ (by decide)
    (fun y => noUUb_of_fst 'r' y (by decide))
  exact chain_zonePost_noUUb records h

/- Basic lemmas about the filesystem model. -/

lemma fsRead_fsWrite_self (fs : FS) (p v : String) : fsRead (fsWrite fs p v) p = some v := by
  induction fs with
  | nil => simp [fsWrite, fsRead]
  | cons e rest ih =>
    obtain ⟨q, w⟩ := e
    by_cases h : q = p <;> simp [fsWrite, fsRead, h, ih]

lemma fsRead_fsWrite_ne (fs : FS) (p q v : String) (h : q ≠ p) :
    fsRead (fsWrite fs p v) q = fsRead fs q := by
  induction fs with
  | nil => simp [fsWrite, fsRead, Ne.symm h]
  | cons e rest ih =>
    obtain ⟨q', w⟩ := e
    by_cases h' : q' = p
    · subst h'
      simp [fsWrite, fsRead, Ne.symm h]
    · by_cases h'' : q' = q <;> simp [fsWrite, fsRead, h', h'', ih, h]

lemma fsWrite_eq_of_read (fs : FS) (p v : String) (h : fsRead fs p = some v) :
    fsWrite fs p v = fs := by
  induction fs with
  | nil => simp [fsRead] at h
  | cons e rest ih =>
    obtain ⟨q, w⟩ := e
    by_cases h' : q = p
    · have h2 : w = v := by simpa [fsRead, h'] using h
      subst h2
      simp [fsWrite, h']
    · simp only [fsRead, if_neg h'] at h
      simp [fsWrite, h', ih h]

/- Outcome equations of write_nsd_zone, and the invariant each outcome
leaves on disk. -/

lemma dkimChainsOk_spec (env : Env) (fs : FS) (hok : dkimChainsOk env fs = true)
    (content : String) (sel val : List Char)
    (hr : fsRead fs (dkimRecordPath env) = some content)
    (hm : dkimMatch content.data = some (sel, val)) :
    chainB noLSb val = true ∧ chainB noUUb sel = true ∧ chainB noUUb val = true := by
  unfold dkimChainsOk at hok
  rw [hr] at hok
  dsimp only at hok
  rw [hm] at hok
  simp only [Bool.and_eq_true] at hok
  exact ⟨hok.1.1, hok.1.2, hok.2⟩

lemma write_nsd_zone_eq_none (domain zonefile : String) (records : List Record) (env : Env)
    (now : String) (fs : FS) (hex : fsRead fs zonefile = none) :
    write_nsd_zone domain zonefile records env now fs =
      (fsWrite fs zonefile (replaceAllS "__SERIAL__" now (rawZone domain env records)),
       true) := by
  unfold write_nsd_zone
  rw [hex]

lemma write_nsd_zone_eq_nos (domain zonefile : String) (records : List Record) (env : Env)
    (now : String) (fs : FS) (existing : String)
    (hex : fsRead fs zonefile = some existing) (hse : searchSerial existing = none) :
    write_nsd_zone domain zonefile records env now fs =
      (fsWrite fs zonefile (replaceAllS "__SERIAL__" now (rawZone domain env records)),
       true) := by
  unfold write_nsd_zone
  rw [hex]
  dsimp only
  rw [hse]

lemma write_nsd_zone_eq_unchanged (domain zonefile : String) (records : List Record)
    (env : Env) (now : String) (fs : FS) (existing : String) (g0 e : List Char)
    (hex : fsRead fs zonefile = some existing)
    (hse : searchSerial existing = some (g0, e))
    (heq : rawZone domain env records =
      replaceAllS ⟨g0⟩ "__SERIAL__     ; serial number" existing) :
    write_nsd_zone domain zonefile records env now fs = (fs, false) := by
  unfold write_nsd_zone
  rw [hex]
  dsimp only
  rw [hse]
  dsimp only
  rw [if_pos heq]

lemma write_nsd_zone_eq_changed (domain zonefile : String) (records : List Record)
    (env : Env) (now : String) (fs : FS) (existing : String) (g0 e : List Char)
    (hex : fsRead fs zonefile = some existing)
    (hse : searchSerial existing = some (g0, e))
    (hne : rawZone domain env records ≠
      replaceAllS ⟨g0⟩ "__SERIAL__     ; serial number" existing) :
    write_nsd_zone domain zonefile records env now fs =
      (fsWrite fs zonefile (replaceAllS "__SERIAL__"
        (if pyStrGe ⟨e⟩ now then natToStr (digitsToNat e + 1) else now)
        (rawZone domain env records)), true) := by
  unfold write_nsd_zone
  rw [hex]
  dsimp only
  rw [hse]
  dsimp only
  rw [if_neg hne]

lemma write_nsd_zone_fs (domain zonefile : String) (records : List Record) (env : Env)
    (now : String) (fs : FS) :
    (write_nsd_zone domain zonefile records env now fs).1 = fs ∨
    ∃ C, (write_nsd_zone domain zonefile records env now fs).1 = fsWrite fs zonefile C := by
  cases hex : fsRead fs zonefile with
  | none =>
    rw [write_nsd_zone_eq_none domain zonefile records env now fs hex]
    exact Or.inr ⟨_, rfl⟩
  | some existing =>
    cases hse : searchSerial existing with
    | none =>
      rw [write_nsd_zone_eq_nos domain zonefile records env now fs existing hex hse]
      exact Or.inr ⟨_, rfl⟩
    | some ge =>
      obtain ⟨g0, e⟩ := ge
      by_cases heq : rawZone domain env records =
          replaceAllS ⟨g0⟩ "__SERIAL__     ; serial number" existing
      · rw [write_nsd_zone_eq_unchanged domain zonefile records env now fs existing g0 e
          hex hse heq]
        exact Or.inl rfl
      · rw [write_nsd_zone_eq_changed domain zonefile records env now fs existing g0 e
          hex hse heq]
        exact Or.inr ⟨_, rfl⟩

lemma write_nsd_zone_inv (domain zonefile : String) (records : List Record) (env : Env)
    (now : String) (fs : FS)
    (hnow1 : now.data ≠ []) (hnow2 : ∀ c ∈ now.data, isDigitCh c = true)
    (hd : ∀ c ∈ domain.data, hsOk c = true)
    (hp : ∀ c ∈ env.PUBLIC_HOSTNAME.data, hsOk c = true)
    (hQL : List.Chain' (fun x y => noLSb x y = true) (zonePost records))
    (hQU : List.Chain' (fun x y => noUUb x y = true) (serialTail ++ zonePost records)) :
    ∃ content,
      fsRead (write_nsd_zone domain zonefile records env now fs).1 zonefile = some content ∧
      zoneInv (rawZone domain env records) content := by
  cases hex : fsRead fs zonefile with
  | none =>
    rw [write_nsd_zone_eq_none domain zonefile records env now fs hex]
    exact ⟨_, fsRead_fsWrite_self fs zonefile _,
      zoneInv_of_write domain env records now.data hnow1 hnow2 hd hp hQL hQU⟩
  | some existing =>
    cases hse : searchSerial existing with
    | none =>
      rw [write_nsd_zone_eq_nos domain zonefile records env now fs existing hex hse]
      exact ⟨_, fsRead_fsWrite_self fs zonefile _,
        zoneInv_of_write domain env records now.data hnow1 hnow2 hd hp hQL hQU⟩
    | some ge =>
      obtain ⟨g0, e⟩ := ge
      by_cases heq : rawZone domain env records =
          replaceAllS ⟨g0⟩ "__SERIAL__     ; serial number" existing
      · rw [write_nsd_zone_eq_unchanged domain zonefile records env now fs existing g0 e
          hex hse heq]
        exact ⟨existing, hex, g0, e, hse, heq.symm⟩
      · rw [write_nsd_zone_eq_changed domain zonefile records env now fs existing g0 e
          hex hse heq]
        by_cases hpy : pyStrGe ⟨e⟩ now = true
        · rw [if_pos hpy]
          exact ⟨_, fsRead_fsWrite_self fs zonefile _,
            zoneInv_of_write domain env records (natToStr (digitsToNat e + 1)).data
              (natToStr_ne_nil _) (natToStr_all_digits _) hd hp hQL hQU⟩
        · rw [if_neg hpy]
          exact ⟨_, fsRead_fsWrite_self fs zonefile _,
            zoneInv_of_write domain env records now.data hnow1 hnow2 hd hp hQL hQU⟩

lemma write_nsd_zone_noop (domain zonefile : String) (records : List Record) (env : Env)
    (now : String) (fs : FS) (content : String)
    (hread : fsRead fs zonefile = some content)
    (hinv : zoneInv (rawZone domain env records) content) :
    write_nsd_zone domain zonefile records env now fs = (fs, false) := by
  obtain ⟨g0, e, hsearch, hrepl⟩ := hinv
  exact write_nsd_zone_eq_unchanged domain zonefile records env now fs content g0 e
    hread hsearch hrepl.symm

/- The daemon-config and OpenDKIM steps. -/

lemma write_nsd_conf_post (zonefiles : List (String × String)) (fs fs2 : FS) (flag : Bool)
    (h : write_nsd_conf zonefiles fs = .ok (fs2, flag)) :
    fsRead fs2 "/etc/nsd/nsd.conf" = some (nsdConfHeader ++ nsdConfText zonefiles) ∧
    (∀ q, q ≠ "/etc/nsd/nsd.conf" → fsRead fs2 q = fsRead fs q) := by
  unfold write_nsd_conf at h
  cases hr : fsRead fs "/etc/nsd/nsd.conf" with
  | none => rw [hr] at h; cases h
  | some c =>
    rw [hr] at h
    dsimp only at h
    by_cases hc : c = nsdConfHeader ++ nsdConfText zonefiles
    · rw [if_pos hc] at h
      injection h with h
      rw [Prod.mk.injEq] at h
      obtain ⟨h1, _⟩ := h
      subst h1
      refine ⟨?_, fun q _ => rfl⟩
      rw [hr, hc]
    · rw [if_neg hc] at h
      injection h with h
      rw [Prod.mk.injEq] at h
      obtain ⟨h1, _⟩ := h
      subst h1
      exact ⟨fsRead_fsWrite_self fs _ _, fun q hq => fsRead_fsWrite_ne fs _ q _ hq⟩

lemma write_nsd_conf_noop (zonefiles : List (String × String)) (fs : FS)
    (h : fsRead fs "/etc/nsd/nsd.conf" = some (nsdConfHeader ++ nsdConfText zonefiles)) :
    write_nsd_conf zonefiles fs = .ok (fs, false) := by
  unfold write_nsd_conf
  rw [h]
  dsimp only
  rw [if_pos rfl]

lemma write_opendkim_frame (zonefiles : List (String × String)) (env : Env) (fs : FS) :
    ∀ q, q ≠ "/etc/opendkim/KeyTable" → q ≠ "/etc/opendkim/SigningTable" →
      fsRead (write_opendkim_tables zonefiles env fs) q = fsRead fs q := by
  intro q h1 h2
  unfold write_opendkim_tables
  by_cases hk : fsExists fs (dkimKeyPath env) = true
  · rw [if_pos hk, fsRead_fsWrite_ne _ _ _ _ h2, fsRead_fsWrite_ne _ _ _ _ h1]
  · rw [if_neg hk]

lemma write_opendkim_post (zonefiles : List (String × String)) (env : Env) (fs : FS)
    (hk : fsExists fs (dkimKeyPath env) = true) :
    fsRead (write_opendkim_tables zonefiles env fs) "/etc/opendkim/KeyTable" =
      some (keyTableText zonefiles (dkimKeyPath env)) ∧
    fsRead (write_opendkim_tables zonefiles env fs) "/etc/opendkim/SigningTable" =
      some (signingTableText zonefiles) := by
  unfold write_opendkim_tables
  rw [if_pos hk]
  constructor
  · rw [fsRead_fsWrite_ne _ _ _ _ (by decide), fsRead_fsWrite_self]
  · rw [fsRead_fsWrite_self]

lemma write_opendkim_noop (zonefiles : List (String × String)) (env : Env) (fs : FS)
    (hread : fsExists fs (dkimKeyPath env) = true →
      fsRead fs "/etc/opendkim/KeyTable" = some (keyTableText zonefiles (dkimKeyPath env)) ∧
      fsRead fs "/etc/opendkim/SigningTable" = some (signingTableText zonefiles)) :
    write_opendkim_tables zonefiles env fs = fs := by
  unfold write_opendkim_tables
  by_cases hk : fsExists fs (dkimKeyPath env) = true
  · rw [if_pos hk]
    obtain ⟨h1, h2⟩ := hread hk
    rw [fsWrite_eq_of_read fs _ _ h1, fsWrite_eq_of_read fs _ _ h2]
  · rw [if_neg hk]

/- The two runs of the per-domain loop: the first establishes the on-disk
invariant for every zone file, the second is a no-op. -/

lemma zone_chains (domain : String) (env : Env) (fs : FS) (records : List Record)
    (hh : ∀ c ∈ env.PUBLIC_HOSTNAME.data, hsOk c = true)
    (hip : ∀ c ∈ env.PUBLIC_IP.data, hsOk c = true)
    (hok : dkimChainsOk env fs = true)
    (hrec : build_zone domain env fs = .ok records) :
    List.Chain' (fun x y => noLSb x y = true) (zonePost records) ∧
    List.Chain' (fun x y => noUUb x y = true) (serialTail ++ zonePost records) := by
  constructor
  · refine chain_zonePost_noLSb records (lines_noLSb domain env fs records hh hip ?_ hrec)
    intro content sel val hr hm
    exact (dkimChainsOk_spec env fs hok content sel val hr hm).1
  · refine chain_st_zonePost_noUUb records (lines_noUUb domain env fs records hh hip ?_ hrec)
    intro content sel val hr hm
    obtain ⟨_, h2, h3⟩ := dkimChainsOk_spec env fs hok content sel val hr hm
    exact ⟨h2, h3⟩

lemma dkimChainsOk_congr (env : Env) (fs fs' : FS)
    (h : fsRead fs' (dkimRecordPath env) = fsRead fs (dkimRecordPath env)) :
    dkimChainsOk env fs' = dkimChainsOk env fs := by
  unfold dkimChainsOk
  rw [h]

lemma processDomains_cons_inv (env : Env) (now : String) (notify : Notify)
    (d zf : String) (rest : List (String × String)) (fs0 fs1 : FS)
    (upd : List String) (calls : List (String × String × String × String))
    (h : processDomains env now notify ((d, zf) :: rest) fs0 = .ok (fs1, upd, calls)) :
    ∃ records, build_zone d env fs0 = .ok records ∧
      ∃ upd' calls', processDomains env now notify rest
        (write_nsd_zone d ("/etc/nsd/zones/" ++ zf) records env now fs0).1 =
          .ok (fs1, upd', calls') := by
  unfold processDomains at h
  cases hbz : build_zone d env fs0 with
  | error e => rw [hbz] at h; cases h
  | ok records =>
    rw [hbz] at h
    dsimp only at h
    refine ⟨records, rfl, ?_⟩
    by_cases hwz : (write_nsd_zone d ("/etc/nsd/zones/" ++ zf) records env now fs0).2 = true
    · rw [if_pos hwz] at h
      cases hjt : justtestingdotemail d records notify with
      | error e => rw [hjt] at h; cases h
      | ok cs =>
        rw [hjt] at h
        cases hpc : processDomains env now notify rest
            (write_nsd_zone d ("/etc/nsd/zones/" ++ zf) records env now fs0).1 with
        | error e => rw [hpc] at h; cases h
        | ok t =>
          obtain ⟨fs2, upd2, calls2⟩ := t
          rw [hpc] at h
          injection h with h
          rw [Prod.mk.injEq] at h
          obtain ⟨hfs, _⟩ := h
          exact ⟨upd2, calls2, by rw [hfs]⟩
    · rw [if_neg hwz] at h
      exact ⟨upd, calls, h⟩

lemma processDomains_frame (env : Env) (now : String) (notify : Notify) :
    ∀ (zfl : List (String × String)) (fs0 fs1 : FS) (upd : List String)
      (calls : List (String × String × String × String)),
      processDomains env now notify zfl fs0 = .ok (fs1, upd, calls) →
      ∀ q, q ∉ zfl.map (fun dz => "/etc/nsd/zones/" ++ dz.2) →
        fsRead fs1 q = fsRead fs0 q := by
  intro zfl
  induction zfl with
  | nil =>
    intro fs0 fs1 upd calls h q _
    unfold processDomains at h
    injection h with h
    rw [Prod.mk.injEq] at h
    rw [← h.1]
  | cons dz0 rest ih =>
    obtain ⟨d, zf⟩ := dz0
    intro fs0 fs1 upd calls h q hq
    obtain ⟨records, hbz, upd', calls', hrest⟩ :=
      processDomains_cons_inv env now notify d zf rest fs0 fs1 upd calls h
    simp only [List.map_cons, List.mem_cons, not_or] at hq
    obtain ⟨hq1, hq2⟩ := hq
    rw [ih _ _ _ _ hrest q hq2]
    rcases write_nsd_zone_fs d ("/etc/nsd/zones/" ++ zf) records env now fs0 with hfs | ⟨C, hC⟩
    · rw [hfs]
    · rw [hC, fsRead_fsWrite_ne _ _ _ _ hq1]

lemma processDomains_run1 (env : Env) (now : String) (notify : Notify)
    (hh : ∀ c ∈ env.PUBLIC_HOSTNAME.data, hsOk c = true)
    (hip : ∀ c ∈ env.PUBLIC_IP.data, hsOk c = true)
    (hnow1 : now.data ≠ []) (hnow2 : ∀ c ∈ now.data, isDigitCh c = true) :
    ∀ (zfl : List (String × String)) (fs0 fs1 : FS) (upd : List String)
      (calls : List (String × String × String × String)),
      processDomains env now notify zfl fs0 = .ok (fs1, upd, calls) →
      (zfl.map (fun dz => "/etc/nsd/zones/" ++ dz.2)).Nodup →
      dkimRecordPath env ∉ zfl.map (fun dz => "/etc/nsd/zones/" ++ dz.2) →
      dkimChainsOk env fs0 = true →
      (∀ dz ∈ zfl, ∀ c ∈ dz.1.data, hsOk c = true) →
      ∀ dz ∈ zfl, ∃ records content,
        build_zone dz.1 env fs0 = .ok records ∧
        fsRead fs1 ("/etc/nsd/zones/" ++ dz.2) = some content ∧
        zoneInv (rawZone dz.1 env records) content := by
  intro zfl
  induction zfl with
  | nil =>
    intro fs0 fs1 upd calls _ _ _ _ _ dz hdz
    simp at hdz
  | cons hd0 rest ih =>
    obtain ⟨d, zf⟩ := hd0
    intro fs0 fs1 upd calls h hnd hmail hok hdom dz hdz
    obtain ⟨records, hbz, upd', calls', hrest⟩ :=
      processDomains_cons_inv env now notify d zf rest fs0 fs1 upd calls h
    simp only [List.map_cons, List.nodup_cons] at hnd
    obtain ⟨hnd1, hnd2⟩ := hnd
    simp only [List.map_cons, List.mem_cons, not_or] at hmail
    obtain ⟨hm1, hm2⟩ := hmail
    have hmailpres : fsRead (write_nsd_zone d ("/etc/nsd/zones/" ++ zf) records env now fs0).1
        (dkimRecordPath env) = fsRead fs0 (dkimRecordPath env) := by
      rcases write_nsd_zone_fs d ("/etc/nsd/zones/" ++ zf) records env now fs0 with
        hfs | ⟨C, hC⟩
      · rw [hfs]
      · rw [hC, fsRead_fsWrite_ne _ _ _ _ hm1]
    rcases List.mem_cons.mp hdz with heq | hdz'
    · subst heq
      have hchains := zone_chains d env fs0 records hh hip hok hbz
      obtain ⟨content, hcr, hinv⟩ := write_nsd_zone_inv d ("/etc/nsd/zones/" ++ zf) records env
        now fs0 hnow1 hnow2 (fun c hc => hdom (d, zf) (by simp) c hc) hh hchains.1 hchains.2
      refine ⟨records, content, hbz, ?_, hinv⟩
      rw [processDomains_frame env now notify rest _ fs1 upd' calls' hrest _ hnd1]
      exact hcr
    · have hok' : dkimChainsOk env
          (write_nsd_zone d ("/etc/nsd/zones/" ++ zf) records env now fs0).1 = true := by
        rw [dkimChainsOk_congr env fs0 _ hmailpres]
        exact hok
      obtain ⟨records', content, hbz', hcr, hinv⟩ := ih _ fs1 upd' calls' hrest hnd2 hm2 hok'
        (fun dz' hdz'' => hdom dz' (by simp [hdz''])) dz hdz'
      refine ⟨records', content, ?_, hcr, hinv⟩
      rw [← build_zone_congr dz.1 env fs0 _ hmailpres]
      exact hbz'

lemma processDomains_run2 (env : Env) (now2 : String) (notify2 : Notify) :
    ∀ (zfl : List (String × String)) (fs1 : FS),
      (∀ dz ∈ zfl, ∃ records content,
        build_zone dz.1 env fs1 = .ok records ∧
        fsRead fs1 ("/etc/nsd/zones/" ++ dz.2) = some content ∧
        zoneInv (rawZone dz.1 env records) content) →
      processDomains env now2 notify2 zfl fs1 = .ok (fs1, [], []) := by
  intro zfl
  induction zfl with
  | nil => intro fs1 _; rfl
  | cons hd0 rest ih =>
    obtain ⟨d, zf⟩ := hd0
    intro fs1 h
    obtain ⟨records, content, hbz, hcr, hinv⟩ := h (d, zf) (by simp)
    have hnoop := write_nsd_zone_noop d ("/etc/nsd/zones/" ++ zf) records env now2 fs1
      content hcr hinv
    unfold processDomains
    rw [hbz]
    dsimp only
    rw [hnoop]
    exact ih fs1 (fun dz' hdz' => h dz' (by simp [hdz']))

lemma do_dns_update_inv (env : Env) (domains : List String) (now : String)
    (notify : Notify) (fs : FS) (res : RunResult)
    (h : do_dns_update env domains now notify fs = .ok res) :
    ∃ fs1 upd calls fs2 confChanged,
      processDomains env now notify (domains.map (fun d => (d, zonefileName d))) fs =
        .ok (fs1, upd, calls) ∧
      write_nsd_conf (domains.map (fun d => (d, zonefileName d))) fs1 =
        .ok (fs2, confChanged) ∧
      res.fs = write_opendkim_tables (domains.map (fun d => (d, zonefileName d))) env fs2 := by
  unfold do_dns_update at h
  dsimp only at h
  cases hpd : processDomains env now notify (domains.map fun d => (d, zonefileName d)) fs with
  | error e => rw [hpd] at h; cases h
  | ok t =>
    obtain ⟨fs1, upd, calls⟩ := t
    rw [hpd] at h
    dsimp only at h
    cases hcf : write_nsd_conf (domains.map fun d => (d, zonefileName d)) fs1 with
    | error e => rw [hcf] at h; cases h
    | ok t2 =>
      obtain ⟨fs2, confChanged⟩ := t2
      rw [hcf] at h
      dsimp only at h
      refine ⟨fs1, upd, calls, fs2, confChanged, rfl, hcf, ?_⟩
      injection h with h
      rw [← h]

lemma do_dns_update_noop (env : Env) (domains : List String) (now2 : String)
    (notify2 : Notify) (fs3 : FS)
    (hpd : processDomains env now2 notify2 (domains.map (fun d => (d, zonefileName d))) fs3 =
      .ok (fs3, [], []))
    (hcf : write_nsd_conf (domains.map (fun d => (d, zonefileName d))) fs3 = .ok (fs3, false))
    (hdk : write_opendkim_tables (domains.map (fun d => (d, zonefileName d))) env fs3 = fs3) :
    do_dns_update env domains now2 notify2 fs3 = .ok ⟨fs3, [], "", []⟩ := by
  unfold do_dns_update
  dsimp only
  rw [hpd]
  dsimp only
  rw [hcf]
  dsimp only
  rw [hdk]
  rfl

/-- C2: idempotence of the full pipeline.  If a run of `do_dns_update`
succeeds — over a domain set whose zone-file paths are distinct and
disjoint from the daemon-config, OpenDKIM-table, and DKIM source paths,
with hostname-safe domain names, hostname and address, a digit serial
date, and a DKIM record (if any) passing the adjacent-pair checks — then
a second run over the resulting filesystem reports no change anywhere:
every zone file's `write_nsd_zone` returns the unchanged filesystem with
`False`, `write_nsd_conf` returns `False`, and the second run returns the
same filesystem with no updated domains, an empty output string and no
notifier calls. -/
theorem c2_idempotent_second_run (env : Env) (domains : List String)
    (now now2 : String) (notify notify2 : Notify) (fs : FS) (res1 : RunResult)
    (hrun1 : do_dns_update env domains now notify fs = .ok res1)
    (hnow1 : now.data ≠ []) (hnow2 : ∀ c ∈ now.data, isDigitCh c = true)
    (hh : ∀ c ∈ env.PUBLIC_HOSTNAME.data, hsOk c = true)
    (hip : ∀ c ∈ env.PUBLIC_IP.data, hsOk c = true)
    (hdom : ∀ d ∈ domains, ∀ c ∈ d.data, hsOk c = true)
    (hok : dkimChainsOk env fs = true)
    (hnd : (domains.map (fun d => "/etc/nsd/zones/" ++ zonefileName d)).Nodup)
    (hconf : "/etc/nsd/nsd.conf" ∉ domains.map (fun d => "/etc/nsd/zones/" ++ zonefileName d))
    (hkt : "/etc/opendkim/KeyTable" ∉
      domains.map (fun d => "/etc/nsd/zones/" ++ zonefileName d))
    (hst : "/etc/opendkim/SigningTable" ∉
      domains.map (fun d => "/etc/nsd/zones/" ++ zonefileName d))
    (hmail : dkimRecordPath env ∉ domains.map (fun d => "/etc/nsd/zones/" ++ zonefileName d) ∧
      dkimRecordPath env ≠ "/etc/nsd/nsd.conf" ∧
      dkimRecordPath env ≠ "/etc/opendkim/KeyTable" ∧
      dkimRecordPath env ≠ "/etc/opendkim/SigningTable")
    (hkey : dkimKeyPath env ≠ "/etc/opendkim/KeyTable" ∧
      dkimKeyPath env ≠ "/etc/opendkim/SigningTable") :
    (∀ dz ∈ domains.map (fun d => (d, zonefileName d)), ∃ records,
      build_zone dz.1 env res1.fs = .ok records ∧
      write_nsd_zone dz.1 ("/etc/nsd/zones/" ++ dz.2) records env now2 res1.fs =
        (res1.fs, false)) ∧
    write_nsd_conf (domains.map (fun d => (d, zonefileName d))) res1.fs =
      .ok (res1.fs, false) ∧
    do_dns_update env domains now2 notify2 res1.fs = .ok ⟨res1.fs, [], "", []⟩ := by
  obtain ⟨fs1, upd, calls, fs2, confChanged, hpd, hcf, hfs3⟩ :=
    do_dns_update_inv env domains now notify fs res1 hrun1
  have hmapeq : (domains.map (fun d => (d, zonefileName d))).map
      (fun dz => "/etc/nsd/zones/" ++ dz.2) =
      domains.map (fun d => "/etc/nsd/zones/" ++ zonefileName d) := by
    simp
  have hinvs := processDomains_run1 env now notify hh hip hnow1 hnow2
    (domains.map (fun d => (d, zonefileName d))) fs fs1 upd calls hpd
    (by rw [hmapeq]; exact hnd) (by rw [hmapeq]; exact hmail.1) hok
    (by
      intro dz hdz c hc
      rw [List.mem_map] at hdz
      obtain ⟨d, hd, rfl⟩ := hdz
      exact hdom d hd c hc)
  obtain ⟨hconfread, hconfframe⟩ :=
    write_nsd_conf_post (domains.map (fun d => (d, zonefileName d))) fs1 fs2 confChanged hcf
  have hzoneread : ∀ d ∈ domains,
      fsRead res1.fs ("/etc/nsd/zones/" ++ zonefileName d) =
      fsRead fs1 ("/etc/nsd/zones/" ++ zonefileName d) := by
    intro d hd
    have hmem : "/etc/nsd/zones/" ++ zonefileName d ∈
        domains.map (fun d => "/etc/nsd/zones/" ++ zonefileName d) :=
      List.mem_map_of_mem _ hd
    rw [hfs3, write_opendkim_frame _ env fs2 _
      (fun heq => hkt (heq ▸ hmem)) (fun heq => hst (heq ▸ hmem)),
      hconfframe _ (fun heq => hconf (heq ▸ hmem))]
  have hmailtrans : fsRead res1.fs (dkimRecordPath env) = fsRead fs (dkimRecordPath env) := by
    rw [hfs3, write_opendkim_frame _ env fs2 _ hmail.2.2.1 hmail.2.2.2,
      hconfframe _ hmail.2.1,
      processDomains_frame env now notify _ fs fs1 upd calls hpd _
        (by rw [hmapeq]; exact hmail.1)]
  have hinvs3 : ∀ dz ∈ domains.map (fun d => (d, zonefileName d)), ∃ records content,
      build_zone dz.1 env res1.fs = .ok records ∧
      fsRead res1.fs ("/etc/nsd/zones/" ++ dz.2) = some content ∧
      zoneInv (rawZone dz.1 env records) content := by
    intro dz hdz
    obtain ⟨records, content, hbz, hcr, hinv⟩ := hinvs dz hdz
    refine ⟨records, content, ?_, ?_, hinv⟩
    · rw [build_zone_congr dz.1 env fs res1.fs hmailtrans]
      exact hbz
    · rw [List.mem_map] at hdz
      obtain ⟨d, hd, rfl⟩ := hdz
      rw [hzoneread d hd]
      exact hcr
  have hrun2pd := processDomains_run2 env now2 notify2
    (domains.map (fun d => (d, zonefileName d))) res1.fs hinvs3
  have hconf3 : fsRead res1.fs "/etc/nsd/nsd.conf" =
      some (nsdConfHeader ++ nsdConfText (domains.map (fun d => (d, zonefileName d)))) := by
    rw [hfs3, write_opendkim_frame _ env fs2 _ (by decide) (by decide)]
    exact hconfread
  have hrun2cf := write_nsd_conf_noop (domains.map (fun d => (d, zonefileName d))) res1.fs hconf3
  have hkeytrans : fsExists res1.fs (dkimKeyPath env) = fsExists fs2 (dkimKeyPath env) := by
    unfold fsExists
    rw [hfs3, write_opendkim_frame _ env fs2 _ hkey.1 hkey.2]
  have hdknoop : write_opendkim_tables (domains.map (fun d => (d, zonefileName d))) env
      res1.fs = res1.fs := by
    apply write_opendkim_noop
    intro hk3
    have hk2 : fsExists fs2 (dkimKeyPath env) = true := by
      rw [← hkeytrans]
      exact hk3
    obtain ⟨hKT, hST⟩ := write_opendkim_post (domains.map (fun d => (d, zonefileName d)))
      env fs2 hk2
    constructor
    · rw [hfs3]
      exact hKT
    · rw [hfs3]
      exact hST
  refine ⟨?_, hrun2cf, do_dns_update_noop env domains now2 notify2 res1.fs hrun2pd
    hrun2cf hdknoop⟩
  intro dz hdz
  obtain ⟨records, content, hbz, hcr, hinv⟩ := hinvs3 dz hdz
  exact ⟨records, hbz,
    write_nsd_zone_noop dz.1 ("/etc/nsd/zones/" ++ dz.2) records env now2 res1.fs
      content hcr hinv⟩

theorem c2_witness :
    (do_dns_update envS ["h.tld"] "2024060100" notifyOkA [("/etc/nsd/nsd.conf", "")] =
      .ok ⟨[("/etc/nsd/nsd.conf",
          "\nserver:\n  hide-version: yes\n\n  # identify the server (CH TXT ID.SERVER entry).\n  identity: \"\"\n\n  # The directory for zonefile: files.\n  zonesdir: \"/etc/nsd/zones\"\n  \n# ZONES\n\nzone:\n\tname: h.tld\n\tzonefile: h.tld.txt\n"),
         ("/etc/nsd/zones/h.tld.txt",
          "\n$ORIGIN h.tld.    ; default zone domain\n$TTL 86400           ; default time to live\n\n@ IN SOA ns1.h.tld. hostmaster.h.tld. (\n           2024060100     ; serial number\n           28800       ; Refresh\n           7200        ; Retry\n           864000      ; Expire\n           86400       ; Min TTL\n           )\n\tIN\tNS\tns1.h.tld.\n\tIN\tNS\tns2.h.tld.\n\tIN\tA\t9.9.9.9\n\tIN\tMX\t10 h.tld.\n\tIN\tTXT\t\"v=spf1 mx -all\"\nwww\tIN\tA\t9.9.9.9\nns1\tIN\tA\t9.9.9.9\nns2\tIN\tA\t9.9.9.9\n")],
        ["h.tld"], "updated: h.tld\n", []⟩ ∧
      (∀ d ∈ ["h.tld"], ∀ c ∈ d.data, hsOk c = true) ∧
      dkimChainsOk envS [("/etc/nsd/nsd.conf", "")] = true ∧
      (["h.tld"].map (fun d => "/etc/nsd/zones/" ++ zonefileName d)).Nodup) ∧
    (write_nsd_conf (["h.tld"].map (fun d => (d, zonefileName d)))
        [("/etc/nsd/nsd.conf",
          "\nserver:\n  hide-version: yes\n\n  # identify the server (CH TXT ID.SERVER entry).\n  identity: \"\"\n\n  # The directory for zonefile: files.\n  zonesdir: \"/etc/nsd/zones\"\n  \n# ZONES\n\nzone:\n\tname: h.tld\n\tzonefile: h.tld.txt\n"),
         ("/etc/nsd/zones/h.tld.txt",
          "\n$ORIGIN h.tld.    ; default zone domain\n$TTL 86400           ; default time to live\n\n@ IN SOA ns1.h.tld. hostmaster.h.tld. (\n           2024060100     ; serial number\n           28800       ; Refresh\n           7200        ; Retry\n           864000      ; Expire\n           86400       ; Min TTL\n           )\n\tIN\tNS\tns1.h.tld.\n\tIN\tNS\tns2.h.tld.\n\tIN\tA\t9.9.9.9\n\tIN\tMX\t10 h.tld.\n\tIN\tTXT\t\"v=spf1 mx -all\"\nwww\tIN\tA\t9.9.9.9\nns1\tIN\tA\t9.9.9.9\nns2\tIN\tA\t9.9.9.9\n")] =
      .ok ([("/etc/nsd/nsd.conf",
          "\nserver:\n  hide-version: yes\n\n  # identify the server (CH TXT ID.SERVER entry).\n  identity: \"\"\n\n  # The directory for zonefile: files.\n  zonesdir: \"/etc/nsd/zones\"\n  \n# ZONES\n\nzone:\n\tname: h.tld\n\tzonefile: h.tld.txt\n"),
         ("/etc/nsd/zones/h.tld.txt",
          "\n$ORIGIN h.tld.    ; default zone domain\n$TTL 86400           ; default time to live\n\n@ IN SOA ns1.h.tld. hostmaster.h.tld. (\n           2024060100     ; serial number\n           28800       ; Refresh\n           7200        ; Retry\n           864000      ; Expire\n           86400       ; Min TTL\n           )\n\tIN\tNS\tns1.h.tld.\n\tIN\tNS\tns2.h.tld.\n\tIN\tA\t9.9.9.9\n\tIN\tMX\t10 h.tld.\n\tIN\tTXT\t\"v=spf1 mx -all\"\nwww\tIN\tA\t9.9.9.9\nns1\tIN\tA\t9.9.9.9\nns2\tIN\tA\t9.9.9.9\n")], false) ∧
      do_dns_update envS ["h.tld"] "2024060101" notifyOkA
        [("/etc/nsd/nsd.conf",
          "\nserver:\n  hide-version: yes\n\n  # identify the server (CH TXT ID.SERVER entry).\n  identity: \"\"\n\n  # The directory for zonefile: files.\n  zonesdir: \"/etc/nsd/zones\"\n  \n# ZONES\n\nzone:\n\tname: h.tld\n\tzonefile: h.tld.txt\n"),
         ("/etc/nsd/zones/h.tld.txt",
          "\n$ORIGIN h.tld.    ; default zone domain\n$TTL 86400           ; default time to live\n\n@ IN SOA ns1.h.tld. hostmaster.h.tld. (\n           2024060100     ; serial number\n           28800       ; Refresh\n           7200        ; Retry\n           864000      ; Expire\n           86400       ; Min TTL\n           )\n\tIN\tNS\tns1.h.tld.\n\tIN\tNS\tns2.h.tld.\n\tIN\tA\t9.9.9.9\n\tIN\tMX\t10 h.tld.\n\tIN\tTXT\t\"v=spf1 mx -all\"\nwww\tIN\tA\t9.9.9.9\nns1\tIN\tA\t9.9.9.9\nns2\tIN\tA\t9.9.9.9\n")] =
      .ok ⟨[("/etc/nsd/nsd.conf",
          "\nserver:\n  hide-version: yes\n\n  # identify the server (CH TXT ID.SERVER entry).\n  identity: \"\"\n\n  # The directory for zonefile: files.\n  zonesdir: \"/etc/nsd/zones\"\n  \n# ZONES\n\nzone:\n\tname: h.tld\n\tzonefile: h.tld.txt\n"),
         ("/etc/nsd/zones/h.tld.txt",
          "\n$ORIGIN h.tld.    ; default zone domain\n$TTL 86400           ; default time to live\n\n@ IN SOA ns1.h.tld. hostmaster.h.tld. (\n           2024060100     ; serial number\n           28800       ; Refresh\n           7200        ; Retry\n           864000      ; Expire\n           86400       ; Min TTL\n           )\n\tIN\tNS\tns1.h.tld.\n\tIN\tNS\tns2.h.tld.\n\tIN\tA\t9.9.9.9\n\tIN\tMX\t10 h.tld.\n\tIN\tTXT\t\"v=spf1 mx -all\"\nwww\tIN\tA\t9.9.9.9\nns1\tIN\tA\t9.9.9.9\nns2\tIN\tA\t9.9.9.9\n")], [], "", []⟩) :=
  ⟨⟨rfl, by decide, by decide, by decide⟩,
    (c2_idempotent_second_run envS ["h.tld"] "2024060100" "2024060101" notifyOkA notifyOkA
      [("/etc/nsd/nsd.conf", "")]
      ⟨[("/etc/nsd/nsd.conf",
          "\nserver:\n  hide-version: yes\n\n  # identify the server (CH TXT ID.SERVER entry).\n  identity: \"\"\n\n  # The directory for zonefile: files.\n  zonesdir: \"/etc/nsd/zones\"\n  \n# ZONES\n\nzone:\n\tname: h.tld\n\tzonefile: h.tld.txt\n"),
         ("/etc/nsd/zones/h.tld.txt",
          "\n$ORIGIN h.tld.    ; default zone domain\n$TTL 86400           ; default time to live\n\n@ IN SOA ns1.h.tld. hostmaster.h.tld. (\n           2024060100     ; serial number\n           28800       ; Refresh\n           7200        ; Retry\n           864000      ; Expire\n           86400       ; Min TTL\n           )\n\tIN\tNS\tns1.h.tld.\n\tIN\tNS\tns2.h.tld.\n\tIN\tA\t9.9.9.9\n\tIN\tMX\t10 h.tld.\n\tIN\tTXT\t\"v=spf1 mx -all\"\nwww\tIN\tA\t9.9.9.9\nns1\tIN\tA\t9.9.9.9\nns2\tIN\tA\t9.9.9.9\n")],
        ["h.tld"], "updated: h.tld\n", []⟩
      rfl (by decide) (by decide) (by decide) (by decide) (by decide) (by decide)
      (by decide) (by decide) (by decide) (by decide) (by decide) (by decide)).2⟩

/-- C5: for every domain, `build_zone` with no DKIM record file present
emits exactly, in order: NS ns1, NS ns2, A root, MX 10, the SPF TXT
record, A www; and appends A records for ns1 and ns2 exactly when the
domain is the public hostname — 8 records for the public hostname, 6
otherwise. -/
theorem c5_record_builder_output (domain : String) (env : Env) (fs : FS)
    (h : fsRead fs (dkimRecordPath env) = none) :
    build_zone domain env fs = .ok (
      [⟨none, "NS", "ns1." ++ env.PUBLIC_HOSTNAME ++ "."⟩,
       ⟨none, "NS", "ns2." ++ env.PUBLIC_HOSTNAME ++ "."⟩,
       ⟨none, "A", env.PUBLIC_IP⟩,
       ⟨none, "MX", "10 " ++ env.PUBLIC_HOSTNAME ++ "."⟩,
       ⟨none, "TXT", "\"v=spf1 mx -all\""⟩,
       ⟨some "www", "A", env.PUBLIC_IP⟩] ++
      (if domain = env.PUBLIC_HOSTNAME then
        [⟨some "ns1", "A", env.PUBLIC_IP⟩, ⟨some "ns2", "A", env.PUBLIC_IP⟩] else [])) ∧
    (∀ l, build_zone domain env fs = .ok l →
      l.length = if domain = env.PUBLIC_HOSTNAME then 8 else 6) := by
  have hb : build_zone domain env fs = .ok (
      [⟨none, "NS", "ns1." ++ env.PUBLIC_HOSTNAME ++ "."⟩,
       ⟨none, "NS", "ns2." ++ env.PUBLIC_HOSTNAME ++ "."⟩,
       ⟨none, "A", env.PUBLIC_IP⟩,
       ⟨none, "MX", "10 " ++ env.PUBLIC_HOSTNAME ++ "."⟩,
       ⟨none, "TXT", "\"v=spf1 mx -all\""⟩,
       ⟨some "www", "A", env.PUBLIC_IP⟩] ++
      (if domain = env.PUBLIC_HOSTNAME then
        [⟨some "ns1", "A", env.PUBLIC_IP⟩, ⟨some "ns2", "A", env.PUBLIC_IP⟩] else [])) := by
    simp only [build_zone, h]
  refine ⟨hb, ?_⟩
  intro l hl
  rw [hb, Except.ok.injEq] at hl
  subst hl
  by_cases hd : domain = env.PUBLIC_HOSTNAME <;> simp [hd]

/-- C5 witness: the public hostname itself with no DKIM file gets the 8
records of the claim, in order. -/
theorem c5_witness :
    fsRead [] (dkimRecordPath envA) = none ∧
    (build_zone "box.example.com" envA [] = .ok (
      [⟨none, "NS", "ns1." ++ envA.PUBLIC_HOSTNAME ++ "."⟩,
       ⟨none, "NS", "ns2." ++ envA.PUBLIC_HOSTNAME ++ "."⟩,
       ⟨none, "A", envA.PUBLIC_IP⟩,
       ⟨none, "MX", "10 " ++ envA.PUBLIC_HOSTNAME ++ "."⟩,
       ⟨none, "TXT", "\"v=spf1 mx -all\""⟩,
       ⟨some "www", "A", envA.PUBLIC_IP⟩] ++
      (if "box.example.com" = envA.PUBLIC_HOSTNAME then
        [⟨some "ns1", "A", envA.PUBLIC_IP⟩, ⟨some "ns2", "A", envA.PUBLIC_IP⟩] else [])) ∧
    (∀ l, build_zone "box.example.com" envA [] = .ok l →
      l.length = if "box.example.com" = envA.PUBLIC_HOSTNAME then 8 else 6)) :=
  ⟨by decide, c5_record_builder_output "box.example.com" envA [] (by decide)⟩

/-- C6 (amended): when the DKIM record file mail.txt is absent no domain
gets any TXT record besides SPF (in particular no DKIM, ADSP or DMARC
record); the KeyTable/SigningTable are left untouched exactly when the
private-key file mail.private is absent — the tables are gated on
mail.private, not on mail.txt. -/
theorem c6_amended_dkim_gating (env : Env) (fs : FS) (domain : String)
    (zonefiles : List (String × String)) :
    (fsRead fs (dkimRecordPath env) = none →
      ∀ l, build_zone domain env fs = .ok l →
        ∀ r ∈ l, r.querytype = "TXT" → r = ⟨none, "TXT", "\"v=spf1 mx -all\""⟩) ∧
    (fsRead fs (dkimKeyPath env) = none →
      write_opendkim_tables zonefiles env fs = fs) := by
  constructor
  · intro h l hl r hr hq
    simp only [build_zone, h, Except.ok.injEq] at hl
    subst hl
    rw [List.mem_append] at hr
    rcases hr with hr | hr
    · simp only [List.mem_cons, List.not_mem_nil, or_false] at hr
      rcases hr with rfl | rfl | rfl | rfl | rfl | rfl <;>
        first | rfl | simp at hq
    · by_cases hd : domain = env.PUBLIC_HOSTNAME
      · rw [if_pos hd] at hr
        simp only [List.mem_cons, List.not_mem_nil, or_false] at hr
        rcases hr with rfl | rfl <;> simp at hq
      · rw [if_neg hd] at hr
        exact absurd hr (List.not_mem_nil r)
  · intro h
    simp [write_opendkim_tables, fsExists, h]

/-- C6 counterexample: with mail.txt absent but mail.private present, the
claimed consequence fails — `write_opendkim_tables` does write the
KeyTable and SigningTable. -/
theorem c6_counterexample :
    fsRead [("/home/user-data/mail/dkim/mail.private", "KEY")] (dkimRecordPath envA) = none ∧
    write_opendkim_tables [("x.com", "x.com.txt")] envA
        [("/home/user-data/mail/dkim/mail.private", "KEY")] ≠
      [("/home/user-data/mail/dkim/mail.private", "KEY")] ∧
    fsRead (write_opendkim_tables [("x.com", "x.com.txt")] envA
        [("/home/user-data/mail/dkim/mail.private", "KEY")]) "/etc/opendkim/KeyTable" =
      some "x.com x.com:mail:/home/user-data/mail/dkim/mail.private" := by
  decide

/-- C6 witness: with both DKIM files absent, a domain gets no TXT record
besides SPF and the tables are untouched. -/
theorem c6_witness :
    (fsRead [] (dkimRecordPath envA) = none ∧ fsRead [] (dkimKeyPath envA) = none) ∧
    (∀ l, build_zone "example.org" envA [] = .ok l →
      ∀ r ∈ l, r.querytype = "TXT" → r = ⟨none, "TXT", "\"v=spf1 mx -all\""⟩) ∧
    write_opendkim_tables [("example.org", "example.org.txt")] envA [] = [] :=
  ⟨⟨by decide, by decide⟩,
    (c6_amended_dkim_gating envA [] "example.org" [("example.org", "example.org.txt")]).1
      (by decide),
    (c6_amended_dkim_gating envA [] "example.org" [("example.org", "example.org.txt")]).2
      (by decide)⟩

/-- C7 (amended): `write_nsd_conf` succeeds exactly when a prior config
file exists; on a first-ever run with no `/etc/nsd/nsd.conf` on disk the
unconditional read fails and the error surfaces. -/
theorem c7_amended_conf_requires_existing (zonefiles : List (String × String)) (fs : FS) :
    (∃ p, write_nsd_conf zonefiles fs = .ok p) ↔ (fsRead fs "/etc/nsd/nsd.conf").isSome := by
  unfold write_nsd_conf
  cases h : fsRead fs "/etc/nsd/nsd.conf" with
  | none => simp
  | some c =>
    by_cases hc : c = nsdConfHeader ++ nsdConfText zonefiles <;> simp [hc]

/-- C7 counterexample: on an empty filesystem (first-ever run) the claim
fails — `write_nsd_conf` errors instead of succeeding. -/
theorem c7_counterexample :
    write_nsd_conf [("x.com", "x.com.txt")] [] =
      .error "FileNotFoundError: /etc/nsd/nsd.conf" := rfl

lemma pyQuoteWith_id (safe : List Nat) (l : List Char)
    (h : ∀ c ∈ l, c.toNat < 128 ∧ alwaysSafe c.toNat = true) :
    (l.flatMap utf8Bytes).flatMap
      (fun b => if alwaysSafe b || safe.contains b then [Char.ofNat b]
                else ['%', hexDigit (b / 16), hexDigit (b % 16)]) = l := by
  induction l with
  | nil => rfl
  | cons c t ih =>
    obtain ⟨h1, h2⟩ := h c (by simp)
    have hu : utf8Bytes c = [c.toNat] := by simp [utf8Bytes, h1]
    have ht := ih (fun x hx => h x (by simp [hx]))
    simp only [List.flatMap_cons, List.flatMap_append, hu]
    rw [ht]
    simp [h2, Char.ofNat_toNat]

/-- C9 (amended): the zone filename is the domain percent-encoded by
urllib.parse.quote with `safe=''`: ASCII letters, digits and the
always-safe characters `_ . - ~` pass through unchanged (so `.` is NOT
escaped), every other character is `%XX`-escaped; then `.txt` is
appended. -/
theorem c9_amended_filename_escaping :
    (∀ domain : String, (∀ c ∈ domain.data, c.toNat < 128 ∧ alwaysSafe c.toNat = true) →
      zonefileName domain = domain ++ ".txt") ∧
    zonefileName "a b/c.com" = "a%20b%2Fc.com.txt" := by
  constructor
  · intro domain h
    have hq : pyQuote domain = domain := by
      unfold pyQuote pyQuoteWith
      rw [pyQuoteWith_id [] domain.data h]
    rw [zonefileName, hq]
  · decide

/-- C9 witness: a plain domain consists of always-safe ASCII characters,
and its zone filename is the domain itself plus `.txt`. -/
theorem c9_witness :
    (∀ c ∈ "example.com".data, c.toNat < 128 ∧ alwaysSafe c.toNat = true) ∧
    zonefileName "example.com" = "example.com.txt" :=
  ⟨by decide, c9_amended_filename_escaping.1 "example.com" (by decide)⟩

/-- C9 counterexample: for the domain `example.com` the dot is left
unescaped in the zone filename, so the claimed `%2E`-style escaping of `.`
does not happen. -/
theorem c9_counterexample :
    zonefileName "example.com" = "example.com.txt" ∧
    '.' ∈ (zonefileName "example.com").data ∧
    ¬ ("%2E".data <:+: (zonefileName "example.com").data) ∧
    ¬ ("%2e".data <:+: (zonefileName "example.com").data) := by
  decide

/-- C10: when the shared DKIM record file parses, every domain's record
list ends with exactly the same three TXT records — the DKIM record built
from the single shared file (selector and parenthesized value identical
for all domains), the ADSP record and the DMARC record. -/
theorem c10_shared_dkim_record (env : Env) (fs : FS) (content : String)
    (sel val : List Char) (d1 d2 : String) (l1 l2 : List Record)
    (hc : fsRead fs (dkimRecordPath env) = some content)
    (hm : dkimMatch content.data = some (sel, val))
    (h1 : build_zone d1 env fs = .ok l1)
    (h2 : build_zone d2 env fs = .ok l2) :
    l1.reverse.take 3 = l2.reverse.take 3 ∧
    l1.reverse.take 3 = [⟨some "_dmarc", "TXT", "\"v=DMARC1; p=quarantine\""⟩,
      ⟨some "_adsp._domainkey", "TXT", "\"dkim=all\""⟩,
      ⟨some ⟨sel⟩, "TXT", ⟨val⟩⟩] := by
  have key : ∀ (x : List Record) (a b c : Record),
      ((x ++ [a, b, c]).reverse).take 3 = [c, b, a] := by
    intro x a b c
    simp [List.reverse_append]
  simp only [build_zone, hc, hm, Except.ok.injEq] at h1 h2
  subst h1
  subst h2
  rw [key, key]
  exact ⟨rfl, rfl⟩

/-- C10 witness: two distinct domains (one of them the public hostname)
receive the identical DKIM TXT record parsed from the shared mail.txt
file, followed by the same ADSP and DMARC records. -/
theorem c10_witness :
    fsRead [("/home/user-data/mail/dkim/mail.txt",
        "mail._domainkey IN TXT ( \"p=MIGf\" ) ; key")] (dkimRecordPath envA) =
      some "mail._domainkey IN TXT ( \"p=MIGf\" ) ; key" ∧
    dkimMatch "mail._domainkey IN TXT ( \"p=MIGf\" ) ; key".data =
      some ("mail._domainkey".data, "( \"p=MIGf\" )".data) ∧
    (∀ l1 l2 : List Record,
      build_zone "box.example.com" envA [("/home/user-data/mail/dkim/mail.txt",
        "mail._domainkey IN TXT ( \"p=MIGf\" ) ; key")] = .ok l1 →
      build_zone "example.org" envA [("/home/user-data/mail/dkim/mail.txt",
        "mail._domainkey IN TXT ( \"p=MIGf\" ) ; key")] = .ok l2 →
      l1.reverse.take 3 = l2.reverse.take 3 ∧
      l1.reverse.take 3 = [⟨some "_dmarc", "TXT", "\"v=DMARC1; p=quarantine\""⟩,
        ⟨some "_adsp._domainkey", "TXT", "\"dkim=all\""⟩,
        ⟨some ⟨"mail._domainkey".data⟩, "TXT", ⟨"( \"p=MIGf\" )".data⟩⟩]) :=
  ⟨by decide, by decide,
    fun l1 l2 h1 h2 => c10_shared_dkim_record envA
      [("/home/user-data/mail/dkim/mail.txt", "mail._domainkey IN TXT ( \"p=MIGf\" ) ; key")]
      "mail._domainkey IN TXT ( \"p=MIGf\" ) ; key"
      "mail._domainkey".data "( \"p=MIGf\" )".data "box.example.com" "example.org"
      l1 l2 (by decide) (by decide) h1 h2⟩

/-- C4 (amended): when the DKIM record file exists but does not match the
expected pattern, `build_zone` raises (the AttributeError of calling
`.group` on `None`) for every domain, no records at all are produced for
the domain, and the error propagates out of `do_dns_update`, aborting the
whole run at the first domain. -/
theorem c4_amended_dkim_parse_failure (env : Env) (fs : FS) (content : String)
    (hc : fsRead fs (dkimRecordPath env) = some content)
    (hm : dkimMatch content.data = none) :
    (∀ domain, build_zone domain env fs =
      .error "AttributeError: NoneType object has no attribute group") ∧
    (∀ d ds now notify, do_dns_update env (d :: ds) now notify fs =
      .error "AttributeError: NoneType object has no attribute group") := by
  have hb : ∀ domain, build_zone domain env fs =
      .error "AttributeError: NoneType object has no attribute group" := by
    intro domain
    simp [build_zone, hc, hm]
  refine ⟨hb, ?_⟩
  intro d ds now notify
  simp [do_dns_update, List.map_cons, processDomains, hb d]

/-- C4 counterexample: a garbage mail.txt makes `build_zone` raise and the
raise aborts the entire `do_dns_update` run, contrary to the claim that
the records are merely omitted and the run survives. -/
theorem c4_counterexample :
    build_zone "example.org" envA
        [("/etc/nsd/nsd.conf", ""), ("/home/user-data/mail/dkim/mail.txt", "garbage")] =
      .error "AttributeError: NoneType object has no attribute group" ∧
    do_dns_update envA ["example.org"] "2024060100" notifyOkA
        [("/etc/nsd/nsd.conf", ""), ("/home/user-data/mail/dkim/mail.txt", "garbage")] =
      .error "AttributeError: NoneType object has no attribute group" :=
  ⟨rfl, rfl⟩

/-- C4 witness: a concrete unparseable DKIM file satisfies the hypotheses,
and both conclusions hold for it. -/
lemma processDomains_calls (env : Env) (now : String) (notify : Notify) :
    ∀ (zfs : List (String × String)) (fs fs' : FS) (upd : List String)
      (calls : List (String × String × String × String)),
      processDomains env now notify zfs fs = .ok (fs', upd, calls) →
      ∀ e ∈ calls, (".justtesting.email".data).isSuffixOf e.1.data = true ∧ e.1 ∈ upd := by
  intro zfs
  induction zfs with
  | nil =>
    intro fs fs' upd calls h e he
    simp only [processDomains, Except.ok.injEq, Prod.mk.injEq] at h
    obtain ⟨-, h2, h3⟩ := h
    subst h3
    cases he
  | cons dz rest ih =>
    obtain ⟨domain, zf⟩ := dz
    intro fs fs' upd calls h e he
    cases hbz : build_zone domain env fs with
    | error err => simp [processDomains, hbz] at h
    | ok records =>
      simp only [processDomains, hbz] at h
      by_cases hw : (write_nsd_zone domain ("/etc/nsd/zones/" ++ zf) records env now fs).2 = true
      · rw [if_pos hw] at h
        cases hjt : justtestingdotemail domain records notify with
        | error err => simp [hjt] at h
        | ok cs =>
          rw [hjt] at h
          cases hpd : processDomains env now notify rest
              (write_nsd_zone domain ("/etc/nsd/zones/" ++ zf) records env now fs).1 with
          | error err => simp [hpd] at h
          | ok tpl =>
            obtain ⟨fs2, upd2, calls2⟩ := tpl
            rw [hpd] at h
            simp only [Except.ok.injEq, Prod.mk.injEq] at h
            obtain ⟨-, h2, h3⟩ := h
            subst h2
            subst h3
            rw [List.mem_append] at he
            rcases he with he | he
            · obtain ⟨c, hc, rfl⟩ := List.mem_map.mp he
              by_cases hsuf : (".justtesting.email".data).isSuffixOf domain.data = true
              · exact ⟨hsuf, List.mem_cons_self domain upd2⟩
              · rw [justtestingdotemail, if_neg hsuf] at hjt
                injection hjt with hjt
                subst hjt
                cases hc
            · obtain ⟨hsuf, hmem⟩ := ih _ fs2 upd2 calls2 hpd e he
              exact ⟨hsuf, List.mem_cons_of_mem domain hmem⟩
      · rw [if_neg hw] at h
        exact ih _ fs' upd calls h e he

/-- C8 (amended): the external notifier is called only for domains ending
in `.justtesting.email`, and only for domains whose zone file write
reported a change (every call's domain appears in `updated_domains`); but
a failure of the call is NOT swallowed — it propagates and aborts the
run. -/
theorem c8_amended_notifier_gating (env : Env) (domains : List String) (now : String)
    (notify : Notify) (fs : FS) (r : RunResult)
    (h : do_dns_update env domains now notify fs = .ok r) :
    ∀ e ∈ r.calls, (".justtesting.email".data).isSuffixOf e.1.data = true ∧ e.1 ∈ r.updated := by
  intro e he
  simp only [do_dns_update] at h
  cases hpd : processDomains env now notify (domains.map fun d => (d, zonefileName d)) fs with
  | error err => rw [hpd] at h; cases h
  | ok tpl =>
    obtain ⟨fs1, upd, calls⟩ := tpl
    rw [hpd] at h
    dsimp only at h
    cases hcf : write_nsd_conf (domains.map fun d => (d, zonefileName d)) fs1 with
    | error err => rw [hcf] at h; cases h
    | ok pr =>
      obtain ⟨fs2, cc⟩ := pr
      rw [hcf] at h
      dsimp only at h
      injection h with h
      subst h
      simp only at he
      obtain ⟨hsuf, hmem⟩ := processDomains_calls env now notify _ fs fs1 upd calls hpd e he
      have hne : upd ≠ [] := List.ne_nil_of_mem hmem
      have hie : upd.isEmpty = false := by
        cases upd with
        | nil => exact absurd rfl hne
        | cons a l => rfl
      refine ⟨hsuf, ?_⟩
      simp only [hie, Bool.and_false, if_false]
      exact hmem

/-- C8 counterexample: for a domain under the test suffix whose zone write
succeeded, a failing notifier call propagates and aborts the whole run,
while the identical run with a working notifier succeeds — contrary to the
claim that notifier failures are swallowed. -/
theorem c8_counterexample :
    do_dns_update envS ["a.justtesting.email"] "2024060100" notifyFailA
        [("/etc/nsd/nsd.conf", "")] =
      .error "curl: (6) could not resolve host" ∧
    (do_dns_update envS ["a.justtesting.email"] "2024060100" notifyOkA
        [("/etc/nsd/nsd.conf", "")]).isOk = true := by
  constructor
  · rfl
  · rfl

/-- C8 witness: a successful run whose single zone write is for a domain
under the test suffix issues exactly one notifier call; that call's domain
carries the suffix and is among the updated domains. -/
theorem c8_witness :
    do_dns_update envS ["a.justtesting.email"] "2024060100" notifyOkA
        [("/etc/nsd/nsd.conf", "")] =
      .ok ⟨[("/etc/nsd/nsd.conf",
          "\nserver:\n  hide-version: yes\n\n  # identify the server (CH TXT ID.SERVER entry).\n  identity: \"\"\n\n  # The directory for zonefile: files.\n  zonesdir: \"/etc/nsd/zones\"\n  \n# ZONES\n\nzone:\n\tname: a.justtesting.email\n\tzonefile: a.justtesting.email.txt\n"),
         ("/etc/nsd/zones/a.justtesting.email.txt",
          "\n$ORIGIN a.justtesting.email.    ; default zone domain\n$TTL 86400           ; default time to live\n\n@ IN SOA ns1.h.tld. hostmaster.h.tld. (\n           2024060100     ; serial number\n           28800       ; Refresh\n           7200        ; Retry\n           864000      ; Expire\n           86400       ; Min TTL\n           )\n\tIN\tNS\tns1.h.tld.\n\tIN\tNS\tns2.h.tld.\n\tIN\tA\t9.9.9.9\n\tIN\tMX\t10 h.tld.\n\tIN\tTXT\t\"v=spf1 mx -all\"\nwww\tIN\tA\t9.9.9.9\n")],
        ["a.justtesting.email"], "updated: a.justtesting.email\n",
        [("a.justtesting.email", "a.justtesting.email", "txt", "%22v%3Dspf1%20mx%20-all%22")]⟩ ∧
    ((".justtesting.email".data).isSuffixOf "a.justtesting.email".data = true ∧
      "a.justtesting.email" ∈ ["a.justtesting.email"]) :=
  ⟨rfl,
    c8_amended_notifier_gating envS ["a.justtesting.email"] "2024060100" notifyOkA
      [("/etc/nsd/nsd.conf", "")]
      ⟨[("/etc/nsd/nsd.conf",
          "\nserver:\n  hide-version: yes\n\n  # identify the server (CH TXT ID.SERVER entry).\n  identity: \"\"\n\n  # The directory for zonefile: files.\n  zonesdir: \"/etc/nsd/zones\"\n  \n# ZONES\n\nzone:\n\tname: a.justtesting.email\n\tzonefile: a.justtesting.email.txt\n"),
         ("/etc/nsd/zones/a.justtesting.email.txt",
          "\n$ORIGIN a.justtesting.email.    ; default zone domain\n$TTL 86400           ; default time to live\n\n@ IN SOA ns1.h.tld. hostmaster.h.tld. (\n           2024060100     ; serial number\n           28800       ; Refresh\n           7200        ; Retry\n           864000      ; Expire\n           86400       ; Min TTL\n           )\n\tIN\tNS\tns1.h.tld.\n\tIN\tNS\tns2.h.tld.\n\tIN\tA\t9.9.9.9\n\tIN\tMX\t10 h.tld.\n\tIN\tTXT\t\"v=spf1 mx -all\"\nwww\tIN\tA\t9.9.9.9\n")],
        ["a.justtesting.email"], "updated: a.justtesting.email\n",
        [("a.justtesting.email", "a.justtesting.email", "txt", "%22v%3Dspf1%20mx%20-all%22")]⟩
      rfl
      ("a.justtesting.email", "a.justtesting.email", "txt", "%22v%3Dspf1%20mx%20-all%22")
      (List.mem_singleton.mpr rfl)⟩

theorem c4_witness :
    fsRead [("/home/user-data/mail/dkim/mail.txt", "garbage")] (dkimRecordPath envA) =
      some "garbage" ∧
    dkimMatch "garbage".data = none ∧
    ((∀ domain, build_zone domain envA [("/home/user-data/mail/dkim/mail.txt", "garbage")] =
      .error "AttributeError: NoneType object has no attribute group") ∧
    (∀ d ds now notify, do_dns_update envA (d :: ds) now notify
        [("/home/user-data/mail/dkim/mail.txt", "garbage")] =
      .error "AttributeError: NoneType object has no attribute group")) :=
  ⟨by decide, by decide,
    c4_amended_dkim_parse_failure envA _ "garbage" (by decide) (by decide)⟩

/-- C1 (amended): over an existing zone file with a recognizable serial,
provided the existing serial has at most as many digits as the candidate
(always true for `YYYYMMDDnn` serials), `write_nsd_zone` either leaves the
file untouched (content unchanged), or writes the zone back with a digit
serial strictly greater than the serial previously on disk. -/
theorem c1_amended_serial_monotonic (domain zonefile : String) (records : List Record)
    (env : Env) (now : String) (fs : FS) (ex : String) (g0 e : List Char)
    (hex : fsRead fs zonefile = some ex)
    (hser : searchSerial ex = some (g0, e))
    (hlen : e.length ≤ now.data.length)
    (hnowd : ∀ c ∈ now.data, isDigitCh c = true)
    (hnow0 : now.data.head? ≠ some '0') :
    write_nsd_zone domain zonefile records env now fs = (fs, false) ∨
    (∃ σ : String, σ.data ≠ [] ∧ (∀ c ∈ σ.data, isDigitCh c = true) ∧
      digitsToNat e < digitsToNat σ.data ∧
      write_nsd_zone domain zonefile records env now fs =
        (fsWrite fs zonefile (replaceAllS "__SERIAL__" σ (rawZone domain env records)),
          true)) := by
  obtain ⟨hene, hed⟩ := searchSerialAux_digits ex.data g0 e hser
  by_cases hchg : rawZone domain env records
      = replaceAllS ⟨g0⟩ "__SERIAL__     ; serial number" ex
  · left
    simp only [write_nsd_zone, hex, hser]
    rw [if_pos hchg]
  · right
    by_cases hge : pyStrGe ⟨e⟩ now = true
    · refine ⟨natToStr (digitsToNat e + 1), natToStr_ne_nil _, natToStr_all_digits _, ?_, ?_⟩
      · rw [digitsToNat_natToStr]
        omega
      · simp only [write_nsd_zone, hex, hser]
        rw [if_neg hchg, if_pos hge]
    · have hgef : pyStrGe ⟨e⟩ now = false := by
        cases hb : pyStrGe ⟨e⟩ now
        · rfl
        · exact absurd hb hge
      have hlt : pyStrLt e now.data = true := by
        have h := hgef
        rw [show pyStrGe ⟨e⟩ now = !pyStrLt e now.data from rfl] at h
        simpa using h
      have hnn : now.data ≠ [] := by
        intro hn
        rw [hn, pyStrLt_nil_right] at hlt
        cases hlt
      have hnum : digitsToNat e < digitsToNat now.data := by
        rcases Nat.lt_or_ge e.length now.data.length with hl | hl
        · cases hnow : now.data with
          | nil => exact absurd hnow hnn
          | cons y bs =>
            refine digitsToNat_lt_of_shorter e y bs hed
              (hnowd y (by rw [hnow]; simp)) ?_ (by rw [← hnow]; exact hl)
            intro hy0
            rw [hnow] at hnow0
            exact hnow0 (by rw [hy0]; rfl)
        · have hleq : e.length = now.data.length := by omega
          exact (pyStrLt_iff e now.data hleq hed hnowd).mp hlt
      refine ⟨now, hnn, hnowd, hnum, ?_⟩
      simp only [write_nsd_zone, hex, hser]
      rw [if_neg hchg, if_neg (by rw [hgef]; exact Bool.false_ne_true)]

/-- C1 witness: over an existing file with serial 3 and changed content,
the zone is rewritten with a strictly larger digit serial. -/
theorem c1_witness :
    (fsRead [("z", "x 3 ; serial number")] "z" = some "x 3 ; serial number" ∧
     searchSerial "x 3 ; serial number" = some ("3 ; serial number".data, ['3']) ∧
     (['3'] : List Char).length ≤ "2024060100".data.length ∧
     (∀ c ∈ "2024060100".data, isDigitCh c = true) ∧
     "2024060100".data.head? ≠ some '0') ∧
    (write_nsd_zone "d" "z" [] envS "2024060100" [("z", "x 3 ; serial number")] =
        ([("z", "x 3 ; serial number")], false) ∨
     (∃ σ : String, σ.data ≠ [] ∧ (∀ c ∈ σ.data, isDigitCh c = true) ∧
        digitsToNat ['3'] < digitsToNat σ.data ∧
        write_nsd_zone "d" "z" [] envS "2024060100" [("z", "x 3 ; serial number")] =
          (fsWrite [("z", "x 3 ; serial number")] "z"
            (replaceAllS "__SERIAL__" σ (rawZone "d" envS [])), true))) :=
  ⟨⟨by decide, by decide, by decide, by decide, by decide⟩,
    c1_amended_serial_monotonic "d" "z" [] envS "2024060100"
      [("z", "x 3 ; serial number")] "x 3 ; serial number"
      "3 ; serial number".data ['3']
      (by decide) (by decide) (by decide) (by decide) (by decide)⟩

/-- C1 counterexample: with an existing recognizable serial of 11 digits
(10000000000) and changed content, the serial written back is the
candidate 2024060100 — numerically smaller than the serial previously on
disk, so the claimed monotonicity fails as stated. -/
theorem c1_counterexample :
    searchSerial "A 10000000000 ; serial number" =
      some ("10000000000 ; serial number".data, "10000000000".data) ∧
    (write_nsd_zone "d" "zc" [] envS "2024060100"
        [("zc", "A 10000000000 ; serial number")]).2 = true ∧
    ((fsRead (write_nsd_zone "d" "zc" [] envS "2024060100"
        [("zc", "A 10000000000 ; serial number")]).1 "zc").map
      (fun c => searchSerial c)) =
      some (some ("2024060100     ; serial number".data, "2024060100".data)) ∧
    digitsToNat "2024060100".data < digitsToNat "10000000000".data := by
  decide

/-- C3 (amended): when the existing zone differs from the new render and
the existing serial has the same number of digits as the candidate, the
increment decision agrees with numeric comparison of the two values (the
code compares the digit strings with Python string `>=`, which coincides
with numeric comparison exactly for equal-length digit strings). -/
theorem c3_amended_serial_comparison (domain zonefile : String) (records : List Record)
    (env : Env) (now : String) (fs : FS) (ex : String) (g0 e : List Char)
    (hex : fsRead fs zonefile = some ex)
    (hser : searchSerial ex = some (g0, e))
    (hchg : rawZone domain env records
      ≠ replaceAllS ⟨g0⟩ "__SERIAL__     ; serial number" ex)
    (hlen : e.length = now.data.length)
    (hnowd : ∀ c ∈ now.data, isDigitCh c = true) :
    write_nsd_zone domain zonefile records env now fs =
      (fsWrite fs zonefile (replaceAllS "__SERIAL__"
        (if digitsToNat now.data ≤ digitsToNat e then natToStr (digitsToNat e + 1) else now)
        (rawZone domain env records)), true) := by
  obtain ⟨hene, hed⟩ := searchSerialAux_digits ex.data g0 e hser
  have hiff := pyStrLt_iff e now.data hlen hed hnowd
  have hgeiff : pyStrGe ⟨e⟩ now = true ↔ digitsToNat now.data ≤ digitsToNat e := by
    rw [show pyStrGe ⟨e⟩ now = !pyStrLt e now.data from rfl]
    cases hb : pyStrLt e now.data
    · rw [hb] at hiff
      constructor
      · intro _
        have hnlt : ¬ digitsToNat e < digitsToNat now.data := by
          intro hc
          have := hiff.mpr hc
          cases this
        omega
      · intro _
        rfl
    · rw [hb] at hiff
      have hv : digitsToNat e < digitsToNat now.data := hiff.mp rfl
      constructor
      · intro hc
        cases hc
      · intro hc
        omega
  simp only [write_nsd_zone, hex, hser]
  rw [if_neg hchg]
  by_cases hge : pyStrGe ⟨e⟩ now = true
  · rw [if_pos hge, if_pos (hgeiff.mp hge)]
  · have h2 : ¬ digitsToNat now.data ≤ digitsToNat e := fun hh => hge (hgeiff.mpr hh)
    rw [if_neg hge, if_neg h2]

/-- C3 witness: the claim's boundary case — existing serial 2024060199 on
the same calendar day (candidate 2024060100) rolls over numerically to
2024060200. -/
theorem c3_witness :
    (fsRead [("z", "Z 2024060199 ; serial number")] "z" =
       some "Z 2024060199 ; serial number" ∧
     searchSerial "Z 2024060199 ; serial number" =
       some ("2024060199 ; serial number".data, "2024060199".data) ∧
     rawZone "d" envS [] ≠ replaceAllS ⟨"2024060199 ; serial number".data⟩
       "__SERIAL__     ; serial number" "Z 2024060199 ; serial number" ∧
     ("2024060199".data).length = "2024060100".data.length ∧
     (∀ c ∈ "2024060100".data, isDigitCh c = true)) ∧
    write_nsd_zone "d" "z" [] envS "2024060100" [("z", "Z 2024060199 ; serial number")] =
      (fsWrite [("z", "Z 2024060199 ; serial number")] "z"
        (replaceAllS "__SERIAL__" "2024060200" (rawZone "d" envS [])), true) :=
  ⟨⟨by decide, by decide, by decide, by decide, by decide⟩,
    (c3_amended_serial_comparison "d" "z" [] envS "2024060100"
      [("z", "Z 2024060199 ; serial number")] "Z 2024060199 ; serial number"
      "2024060199 ; serial number".data "2024060199".data
      (by decide) (by decide) (by decide) (by decide) (by decide)).trans (by decide)⟩

/-- C3 counterexample: with existing serial 999 (numerically far below the
candidate 2024060100), the code still increments to 1000 instead of using
the candidate — the decision is Python string comparison, not numeric. -/
theorem c3_counterexample :
    digitsToNat "999".data < digitsToNat "2024060100".data ∧
    write_nsd_zone "d" "z" [] envS "2024060100" [("z", "Q 999 ; serial number")] =
      (fsWrite [("z", "Q 999 ; serial number")] "z"
        (replaceAllS "__SERIAL__" "1000" (rawZone "d" envS [])), true) ∧
    ("1000" : String) ≠ "2024060100" := by
  decide

end DnsUpdate
